import Mathlib

/-!
Shallow embedding of the core of the tui-wordle repository
(src/game.rs, src/dictionary.rs) and proofs about it.

Conventions of the embedding:
* Rust `u16`/`u8`/`usize` quantities are modelled as `Nat`; all subtractions
  that occur in the source are in-range under the invariants proved below,
  so `Nat` truncated subtraction agrees with the machine arithmetic.
* In-place mutation is modelled by explicit state passing: a Rust method
  `fn f(&mut self, ..) -> Result<T, E>` becomes a Lean function
  `f : State → .. → (Except E T) × State` returning the updated state
  (the input state unchanged on the error paths, as in the source).
* A Rust indexing operation that can panic is modelled with `Option`:
  `none` is the panic. Functions whose source can panic return `Option`.
* Fallible Rust functions return `Except`.
-/

namespace TuiWordle

/-! ### Basic data (game.rs) -/

/-- LetterResult from game.rs. -/
inductive LetterResult where
  | Empty
  | Absent
  | Present
  | Correct
deriving DecidableEq, Repr

/-- GameError from game.rs. -/
inductive GameError where
  | DictionaryError
  | NoActiveGame
  | NoActiveGuess
  | EmptyGuess
  | FullGuess
  | IncompleteGuess
  | InternalError (msg : String)
deriving DecidableEq, Repr

/-- GuessState from game.rs. -/
inductive GuessState where
  | Active
  | Complete
  | Pending
deriving DecidableEq, Repr

/-- GameState from game.rs. -/
inductive GameState where
  | Active
  | Won
  | Lost
deriving DecidableEq, Repr

/-- Rust `char::to_ascii_uppercase`: maps a lowercase ASCII letter to its
uppercase counterpart and leaves every other character unchanged. -/
def asciiUpper (c : Char) : Char :=
  if 'a' ≤ c ∧ c ≤ 'z' then Char.ofNat (c.toNat - 32) else c

/-- Rust `char::MIN` (the NUL character), used by `check_guess` in game.rs to
mark an answer-character occurrence as consumed. -/
def charMIN : Char := Char.ofNat 0

/-- Rust `Iterator::position` over a character list (used in the second pass of
`check_guess`): index of the first element satisfying the predicate. -/
def position (p : Char → Bool) : List Char → Option Nat
  | [] => none
  | a :: l => if p a then some 0 else (position p l).map (· + 1)

/-! ### GameData::check_guess (game.rs lines 305-334)

The two `for` loops of the source are modelled by structural recursion over
the remaining guess characters together with the current loop index `i`.
`ans` is the mutable `answer_chars` vector and `res` the mutable `result`
vector; `none` models an out-of-bounds indexing panic. -/

/-- First pass of `check_guess`: for each `i`, if `guess_chars[i] ==
answer_chars[i].to_ascii_uppercase()` then `result[i] = Correct` and
`answer_chars[i] = char::MIN`.  Reading `answer_chars[i]` out of bounds, or
writing `result[i]` out of bounds, is a panic (`none`). -/
def pass1 : List Char → Nat → List Char → List LetterResult →
    Option (List Char × List LetterResult)
  | [], _, ans, res => some (ans, res)
  | g :: rest, i, ans, res =>
    match ans[i]? with
    | none => none
    | some a =>
      if g = asciiUpper a then
        match res[i]? with
        | none => none
        | some _ => pass1 rest (i + 1) (ans.set i charMIN) (res.set i .Correct)
      else
        pass1 rest (i + 1) ans res

/-- Second pass of `check_guess`: for each `i` not already `Correct`, find the
first position of the (mutated) answer whose uppercase equals `guess_chars[i]`;
mark it consumed and record `Present`.  Reading `result[i]` out of bounds is a
panic (`none`). -/
def pass2 : List Char → Nat → List Char → List LetterResult →
    Option (List Char × List LetterResult)
  | [], _, ans, res => some (ans, res)
  | g :: rest, i, ans, res =>
    match res[i]? with
    | none => none
    | some r =>
      if r = LetterResult.Correct then
        pass2 rest (i + 1) ans res
      else
        match position (fun a => asciiUpper a == g) ans with
        | some pos => pass2 rest (i + 1) (ans.set pos charMIN) (res.set i .Present)
        | none => pass2 rest (i + 1) ans res

/-- GameData::check_guess from game.rs: scores `guess_chars` against
`answer`.  `answer_chars` starts as the ASCII-uppercased characters of the
answer, `result` as `word_length` copies of `Absent`. -/
def check_guess (answer : String) (word_length : Nat) (guess_chars : List Char) :
    Option (List LetterResult) := do
  let answer_chars := answer.data.map asciiUpper
  let (ans1, res1) ← pass1 guess_chars 0 answer_chars (List.replicate word_length .Absent)
  let (_, res2) ← pass2 guess_chars 0 ans1 res1
  pure res2

/-! ### The scoring rule as the specification states it (spec §4.4 step 4)

A second scorer written from the words of the specification, to be compared
with `check_guess` above.  Consumption of an answer-character occurrence is
tracked explicitly (`none` = consumed) instead of by the NUL sentinel, and
letters are compared case-insensitively by uppercasing both sides. -/

/-- Spec pass 1: for each index `i`, if the guess and the answer agree at `i`
case-insensitively, record `Correct` at `i` and consume that answer
occurrence. -/
def specPass1 : List Char → Nat → List (Option Char) → List LetterResult →
    List (Option Char) × List LetterResult
  | [], _, pool, res => (pool, res)
  | g :: rest, i, pool, res =>
    match pool[i]? with
    | some (some a) =>
      if asciiUpper g = asciiUpper a then
        specPass1 rest (i + 1) (pool.set i none) (res.set i .Correct)
      else
        specPass1 rest (i + 1) pool res
    | _ => specPass1 rest (i + 1) pool res

/-- First unconsumed occurrence in the pool equal (case-insensitively) to the
guess character. -/
def specFind (g : Char) : List (Option Char) → Option Nat
  | [] => none
  | x :: l =>
    match x with
    | some a =>
      if asciiUpper a = asciiUpper g then some 0 else (specFind g l).map (· + 1)
    | none => (specFind g l).map (· + 1)

/-- Spec pass 2: each remaining (non-`Correct`) guess position is marked
`Present` exactly when some unconsumed answer occurrence equals it
case-insensitively, consuming the first such occurrence; it stays `Absent`
otherwise. -/
def specPass2 : List Char → Nat → List (Option Char) → List LetterResult →
    List (Option Char) × List LetterResult
  | [], _, pool, res => (pool, res)
  | g :: rest, i, pool, res =>
    if res[i]? = some LetterResult.Correct then
      specPass2 rest (i + 1) pool res
    else
      match specFind g pool with
      | some pos => specPass2 rest (i + 1) (pool.set pos none) (res.set i .Present)
      | none => specPass2 rest (i + 1) pool res

/-- The spec's two-pass duplicate-letter scoring rule, for an answer and a
guess of the same length. -/
def specScore (answer guess : List Char) : List LetterResult :=
  let p1 := specPass1 guess 0 (answer.map some) (List.replicate guess.length .Absent)
  (specPass2 guess 0 p1.1 p1.2).2

/-! ### Dictionary (dictionary.rs) -/

/-- DictionaryError from dictionary.rs.  `WordNotFound` carries the message
"No word found matching the criteria" and is what the spec calls
`NoWordOfLength`; `FileLoadError` is the spec's `LoadFailure`. -/
inductive DictionaryError where
  | FileLoadError
  | WordNotFound
deriving DecidableEq, Repr

/-- The backing word-list file of a dictionary: `none` models an unreadable
file (any I/O error of `fs::read_to_string`), `some lines` its line-split
contents. -/
structure Backing where
  lines : Option (List String)
deriving DecidableEq, Repr

/-- The closure built by `Dictionary::load_dictionary` in dictionary.rs,
applied to the dictionary's backing file: `fs::read_to_string(filename)`
split into lines, with any I/O error mapped to `FileLoadError`. -/
def load_dictionary (b : Backing) : Except DictionaryError (List String) :=
  match b.lines with
  | some ls => .ok ls
  | none => .error .FileLoadError

/-- Rust `IteratorRandom::choose` over the cached contents: `none` exactly when
the iterator is empty, otherwise a uniformly random element.  The random draw
is modelled by an arbitrary `pick : Nat` reduced modulo the length. -/
def choose (contents : List String) (pick : Nat) : Option String :=
  contents[pick % contents.length]?

/-- Dictionary::random_word from dictionary.rs.

The field `all_words : Lazy<Box<dyn Fn(&str) -> Result<Vec<String>,
DictionaryError>>>` memoizes only the *loader closure* produced by
`load_dictionary()`, not the result of applying it; `random_word` applies the
closure to `self.filename` on every call, so every call performs a fresh read
of the backing file.  `reads` counts the reads of the backing source performed
so far; the call returns the new count. -/
def random_word (b : Backing) (pick : Nat) (reads : Nat) :
    (Except DictionaryError String) × Nat :=
  let reads' := reads + 1
  match load_dictionary b with
  | .error e => (.error e, reads')
  | .ok contents =>
    match choose contents pick with
    | some w => (.ok w, reads')
    | none => (.error .WordNotFound, reads')

/-- The identifying data of a `Dictionary` value from dictionary.rs (the
lazily-initialized loader cell is modelled at the `random_word` call sites). -/
structure Dictionary where
  name : String
  length : Nat
  filename : String
deriving DecidableEq, Repr

/-- get_dictionaries from dictionary.rs: the fixed, hard-coded catalog built
exactly once per thread and shared thereafter. -/
def get_dictionaries : List Dictionary :=
  [⟨"Wordle", 5, "data/wordle.txt"⟩,
   ⟨"Scrabble", 4, "data/scrabble.txt"⟩,
   ⟨"Scrabble", 5, "data/scrabble.txt"⟩,
   ⟨"Scrabble", 6, "data/scrabble.txt"⟩,
   ⟨"Scrabble", 7, "data/scrabble.txt"⟩,
   ⟨"Dutch", 4, "data/dutch.txt"⟩,
   ⟨"Dutch", 5, "data/dutch.txt"⟩,
   ⟨"Dutch", 6, "data/dutch.txt"⟩,
   ⟨"Dutch", 7, "data/dutch.txt"⟩,
   ⟨"Dutch", 8, "data/dutch.txt"⟩,
   ⟨"French", 4, "data/french.txt"⟩,
   ⟨"French", 5, "data/french.txt"⟩,
   ⟨"French", 6, "data/french.txt"⟩,
   ⟨"French", 7, "data/french.txt"⟩,
   ⟨"French", 8, "data/french.txt"⟩,
   ⟨"Italian", 4, "data/italian.txt"⟩,
   ⟨"Italian", 5, "data/italian.txt"⟩,
   ⟨"Italian", 6, "data/italian.txt"⟩,
   ⟨"Italian", 7, "data/italian.txt"⟩,
   ⟨"Italian", 8, "data/italian.txt"⟩]

/-- GameOptions from game.rs (the `Arc<Dictionary>` field is the identifying
data of the shared dictionary). -/
structure GameOptions where
  word_length : Nat
  max_guesses : Nat
  dictionary : Dictionary
deriving DecidableEq, Repr

/-- GameOptions::set_dictionary from game.rs: linear `(name, length)` lookup
over `get_dictionaries()`; on a miss the `?` operator returns
`GameError::DictionaryError` before either field is touched; on a hit both
`dictionary` and `word_length` are assigned. -/
def GameOptions.set_dictionary (opts : GameOptions) (name : String) (length : Nat) :
    (Except GameError Unit) × GameOptions :=
  match get_dictionaries.find? (fun x => x.name == name && x.length == length) with
  | none => (.error .DictionaryError, opts)
  | some d => (.ok (), { opts with dictionary := d, word_length := length })

/-! ### Guess (game.rs lines 100-185) -/

/-- Guess from game.rs. -/
structure Guess where
  max_length : Nat
  letters : List Char
  result : Option (List LetterResult)
  state : GuessState
deriving DecidableEq, Repr

/-- Guess::new from game.rs. -/
def Guess.new (max_length : Nat) : Guess :=
  { max_length := max_length, letters := [], result := none, state := .Pending }

/-- Guess::make_vec from game.rs: `max_guesses` fresh guesses of capacity
`word_length`, the one at index 0 marked Active. -/
def Guess.make_vec (word_length max_guesses : Nat) : List Guess :=
  (List.range max_guesses).map fun i =>
    if i = 0 then { Guess.new word_length with state := .Active }
    else Guess.new word_length

/-- Guess::remaining_letters from game.rs (`u16` subtraction; in-range under
the `letters.len() ≤ max_length` invariant). -/
def Guess.remaining_letters (g : Guess) : Nat :=
  g.max_length - g.letters.length

/-- Guess::add_letter from game.rs: fails with FullGuess when no capacity
remains, otherwise pushes the character. -/
def Guess.add_letter (g : Guess) (c : Char) : (Except GameError Unit) × Guess :=
  if g.remaining_letters ≤ 0 then (.error .FullGuess, g)
  else (.ok (), { g with letters := g.letters ++ [c] })

/-- Guess::delete_letter from game.rs: fails with EmptyGuess when every slot
remains (no letters entered), otherwise pops the last letter. -/
def Guess.delete_letter (g : Guess) : (Except GameError Unit) × Guess :=
  if g.remaining_letters = g.max_length then (.error .EmptyGuess, g)
  else (.ok (), { g with letters := g.letters.dropLast })

/-- Guess::complete_guess from game.rs. -/
def Guess.complete_guess (g : Guess) (result : List LetterResult) : Guess :=
  { g with result := some result, state := .Complete }

/-- The body of the `for (i, c)` loop in the `None` branch of Guess::values:
overwrites slot `i` with the uppercased entered letter.  `List.set` out of
bounds is unreachable under the `letters.len() ≤ max_length` invariant (in the
source it would be an indexing panic). -/
def overwriteLetters : List Char → Nat → List (Option Char × Option LetterResult) →
    List (Option Char × Option LetterResult)
  | [], _, acc => acc
  | c :: cs, i, acc => overwriteLetters cs (i + 1) (acc.set i (some (asciiUpper c), some .Empty))

/-- Guess::values from game.rs: the read projection handed to rendering
collaborators. -/
def Guess.values (g : Guess) : List (Option Char × Option LetterResult) :=
  match g.result with
  | some results => (g.letters.zip results).map fun p => (some p.1, some p.2)
  | none =>
    overwriteLetters g.letters 0
      (List.replicate g.max_length (some ' ', some LetterResult.Empty))

/-! ### GameData (game.rs lines 187-348) -/

/-- GameData from game.rs.  Of `game_options` only the two fields the round
ever reads (`word_length`, `max_guesses`) are kept; `answer` is the word the
round was constructed with (drawn by `GameOptions::random_word`, which is
modelled separately by `random_word` above). -/
structure GameData where
  game_state : GameState
  answer : String
  word_length : Nat
  max_guesses : Nat
  guesses : List Guess
deriving DecidableEq, Repr

/-- GameData::new from game.rs, after the answer has been drawn: state Active
and a fresh guess vector. -/
def GameData.new (answer : String) (word_length max_guesses : Nat) : GameData :=
  { game_state := .Active
    answer := answer
    word_length := word_length
    max_guesses := max_guesses
    guesses := Guess.make_vec word_length max_guesses }

/-- The `iter().enumerate().find(|g| g.state == Active)` /
`iter().position(|x| x.state == Active)` search shared by add_letter,
delete_letter and submit_word in game.rs: the first Active guess together
with its index. -/
def findActive : List Guess → Option (Nat × Guess)
  | [] => none
  | g :: rest =>
    if g.state = GuessState.Active then some (0, g)
    else (findActive rest).map fun p => (p.1 + 1, p.2)

/-- GameData::add_letter from game.rs: rejects when the game is not active,
finds the active guess, and pushes the ASCII-uppercased character into it. -/
def GameData.add_letter (d : GameData) (c : Char) : (Except GameError Unit) × GameData :=
  if d.game_state = GameState.Active then
    match findActive d.guesses with
    | none => (.error .NoActiveGuess, d)
    | some (k, g) =>
      match g.add_letter (asciiUpper c) with
      | (.error e, _) => (.error e, d)
      | (.ok _, g') => (.ok (), { d with guesses := d.guesses.set k g' })
  else (.error .NoActiveGame, d)

/-- GameData::delete_letter from game.rs. -/
def GameData.delete_letter (d : GameData) : (Except GameError Unit) × GameData :=
  if d.game_state = GameState.Active then
    match findActive d.guesses with
    | none => (.error .NoActiveGuess, d)
    | some (k, g) =>
      match g.delete_letter with
      | (.error e, _) => (.error e, d)
      | (.ok _, g') => (.ok (), { d with guesses := d.guesses.set k g' })
  else (.error .NoActiveGame, d)

/-- GameData::update_game_state from game.rs: all-Correct wins; otherwise the
next guess is activated when one remains (`guesses[guess_idx + 1]`, an
indexing panic modelled by `none` if out of bounds), else the round is lost. -/
def GameData.update_game_state (d : GameData) (guess_idx : Nat)
    (result : List LetterResult) : Option GameData :=
  if result.all (fun x => x == LetterResult.Correct) then
    some { d with game_state := .Won }
  else if 0 < d.max_guesses - guess_idx - 1 then
    match d.guesses[guess_idx + 1]? with
    | none => none
    | some g =>
      some { d with guesses := d.guesses.set (guess_idx + 1) { g with state := .Active } }
  else
    some { d with game_state := .Lost }

/-- GameData::submit_word from game.rs: checks the game is active, locates the
active guess, rejects an incomplete guess, scores it with `check_guess`
(whose indexing panic propagates as `none`), completes it, and updates the
game state, returning the resulting state. -/
def GameData.submit_word (d : GameData) : Option ((Except GameError GameState) × GameData) :=
  if d.game_state = GameState.Active then
    match findActive d.guesses with
    | none => some (.error (.InternalError "No active guess found"), d)
    | some (k, g) =>
      if 0 < g.remaining_letters then some (.error .IncompleteGuess, d)
      else
        match check_guess d.answer d.word_length g.letters with
        | none => none
        | some result =>
          let d1 : GameData := { d with guesses := d.guesses.set k (g.complete_guess result) }
          match d1.update_game_state k result with
          | none => none
          | some d2 => some (.ok d2.game_state, d2)
  else some (.error .NoActiveGame, d)

/-- Relation between the code's sentinel-marked answer vector and the spec's
explicitly tracked consumption pool: a consumed occurrence is NUL on the code
side and `none` on the spec side; an unconsumed occurrence holds the
uppercased original character on the code side. -/
def OccRel : Char → Option Char → Prop
  | x, some a => x = asciiUpper a
  | x, none => x = charMIN

/-- The attempt layout the spec's §3 Round invariant describes: the guesses
split as `pre ++ a :: post` where every attempt before index `k` is Complete,
the attempt at `k` is Active (the unique Active one), and every attempt after
`k` is Pending. -/
def activeAt (gs : List Guess) (k : Nat) : Prop :=
  ∃ pre a post, gs = pre ++ a :: post ∧ pre.length = k ∧
    (∀ g ∈ pre, g.state = GuessState.Complete) ∧
    a.state = GuessState.Active ∧
    (∀ g ∈ post, g.state = GuessState.Pending)

/-- Well-formedness of a single attempt with respect to the round's word
length. -/
def Guess.wf (wl : Nat) (g : Guess) : Prop :=
  g.max_length = wl ∧ g.letters.length ≤ wl ∧
  (g.state = GuessState.Pending → g.letters = [] ∧ g.result = none) ∧
  (g.state = GuessState.Active → g.result = none) ∧
  (g.state = GuessState.Complete →
    ∃ r, g.result = some r ∧ r.length = wl ∧ g.letters.length = wl)

/-- The round invariant: as many attempts as `max_guesses`, each attempt well
formed, and — while the round is Active — the Complete/Active/Pending layout
of `activeAt`. -/
def GameData.wf (d : GameData) : Prop :=
  d.guesses.length = d.max_guesses ∧
  (∀ g ∈ d.guesses, Guess.wf d.word_length g) ∧
  (d.game_state = GameState.Active → ∃ k, activeAt d.guesses k)

/-- Round states reachable from construction (`GameData::new` with at least
one allowed guess — the options screen keeps `max_tries` within `[3, 10]`)
via the three mutating operations.  A `submit_word` panic (`none`) has no
successor state. -/
inductive Reachable : GameData → Prop where
  | init (answer : String) (wl mg : Nat) (h : 0 < mg) :
      Reachable (GameData.new answer wl mg)
  | add {d : GameData} (c : Char) (hd : Reachable d) : Reachable (d.add_letter c).2
  | del {d : GameData} (hd : Reachable d) : Reachable d.delete_letter.2
  | sub {d d' : GameData} {r : Except GameError GameState} (hd : Reachable d)
      (h : d.submit_word = some (r, d')) : Reachable d'

/-- Typing a word into the round, one `add_letter` at a time, ignoring the
advisory errors exactly as the key handler does. -/
def typeLetters (d : GameData) (w : List Char) : GameData :=
  w.foldl (fun d c => (d.add_letter c).2) d

/-- Play a sequence of words: type each word in full, then submit; stops
(`none`) on a panic or a submit error. -/
def playWords (d : GameData) : List (List Char) → Option GameData
  | [] => some d
  | w :: ws =>
    match (typeLetters d w).submit_word with
    | some (.ok _, d') => playWords d' ws
    | _ => none

/-- An arbitrary interleaving of `add_letter` (with the given character) and
`delete_letter` calls applied to a guess, ignoring the advisory
FullGuess/EmptyGuess errors as the UI layer does. -/
def applyEdits (g : Guess) (es : List (Option Char)) : Guess :=
  es.foldl
    (fun g e =>
      match e with
      | some c => (g.add_letter c).2
      | none => g.delete_letter.2)
    g

example : check_guess "ALLOY" 5 ['L', 'O', 'L', 'L', 'Y'] =
    some [.Present, .Present, .Correct, .Absent, .Correct] := by decide

example : check_guess "REACT" 5 ['T', 'R', 'A', 'C', 'E'] =
    some [.Present, .Present, .Correct, .Correct, .Present] := by decide

example : specScore "REACT".data ['T', 'R', 'A', 'C', 'E'] =
    [.Present, .Present, .Correct, .Correct, .Present] := by decide

example : check_guess "AB" 3 ['X', 'Y', 'Z'] = none := by decide

/-! ### Editing sequences over a single Guess (for the capacity invariant) -/

lemma add_letter_max (g : Guess) (c : Char) : (g.add_letter c).2.max_length = g.max_length := by
  unfold Guess.add_letter
  split <;> rfl

lemma delete_letter_max (g : Guess) : g.delete_letter.2.max_length = g.max_length := by
  unfold Guess.delete_letter
  split <;> rfl

lemma add_letter_le (g : Guess) (c : Char) (h : g.letters.length ≤ g.max_length) :
    (g.add_letter c).2.letters.length ≤ g.max_length := by
  unfold Guess.add_letter Guess.remaining_letters
  split
  · exact h
  · rename_i hfull
    simp only [List.length_append, List.length_cons, List.length_nil]
    omega

lemma delete_letter_le (g : Guess) (h : g.letters.length ≤ g.max_length) :
    g.delete_letter.2.letters.length ≤ g.max_length := by
  unfold Guess.delete_letter
  split
  · exact h
  · simp only [List.length_dropLast]
    omega

lemma applyEdits_inv : ∀ (es : List (Option Char)) (g : Guess),
    g.letters.length ≤ g.max_length →
    (applyEdits g es).letters.length ≤ (applyEdits g es).max_length ∧
      (applyEdits g es).max_length = g.max_length
  | [], g, h => ⟨h, rfl⟩
  | some c :: es, g, h => by
    have step := applyEdits_inv es (g.add_letter c).2
      (by rw [add_letter_max]; exact add_letter_le g c h)
    simpa [applyEdits, add_letter_max] using step
  | none :: es, g, h => by
    have step := applyEdits_inv es g.delete_letter.2
      (by rw [delete_letter_max]; exact delete_letter_le g h)
    simpa [applyEdits, delete_letter_max] using step

/-- C9: for every Attempt whose entered letters are within capacity, the count
stays within `[0, max_length]` across every sequence of add_letter and
delete_letter calls; add_letter fails with FullGuess (appending nothing)
exactly when the attempt already holds `max_length` letters, and delete_letter
fails with EmptyGuess (removing nothing) exactly when it holds zero letters. -/
theorem guess_letter_bounds (g : Guess) (hg : g.letters.length ≤ g.max_length) :
    (∀ es : List (Option Char),
        (applyEdits g es).letters.length ≤ (applyEdits g es).max_length ∧
          (applyEdits g es).max_length = g.max_length) ∧
    (∀ c : Char,
        (g.add_letter c = (.error .FullGuess, g) ↔ g.letters.length = g.max_length) ∧
        (g.letters.length < g.max_length →
          (g.add_letter c).1 = .ok () ∧ (g.add_letter c).2.letters = g.letters ++ [c])) ∧
    ((g.delete_letter = (.error .EmptyGuess, g) ↔ g.letters.length = 0) ∧
      (0 < g.letters.length →
        g.delete_letter.1 = .ok () ∧ g.delete_letter.2.letters = g.letters.dropLast)) := by
  refine ⟨fun es => applyEdits_inv es g hg, fun c => ⟨?_, ?_⟩, ?_, ?_⟩
  · unfold Guess.add_letter Guess.remaining_letters
    constructor
    · intro h
      split at h
      · omega
      · simp at h
    · intro h
      rw [if_pos (by omega)]
  · intro h
    unfold Guess.add_letter Guess.remaining_letters
    rw [if_neg (by omega)]
    exact ⟨rfl, rfl⟩
  · unfold Guess.delete_letter Guess.remaining_letters
    constructor
    · intro h
      split at h
      · omega
      · simp at h
    · intro h
      rw [if_pos (by omega)]
  · intro h
    unfold Guess.delete_letter Guess.remaining_letters
    rw [if_neg (by omega)]
    exact ⟨rfl, rfl⟩

/-- Witness for `guess_letter_bounds` at a concrete guess holding one of two
letters. -/
theorem guess_letter_bounds_witness :
    (applyEdits ⟨2, ['A'], none, .Active⟩ [some 'B', some 'C', none]).letters.length ≤
        (applyEdits ⟨2, ['A'], none, .Active⟩ [some 'B', some 'C', none]).max_length ∧
      ((⟨2, ['A'], none, .Active⟩ : Guess).add_letter 'B').2.letters = ['A', 'B'] :=
  ⟨(guess_letter_bounds ⟨2, ['A'], none, .Active⟩ (by decide)).1 [some 'B', some 'C', none] |>.1,
   ((guess_letter_bounds ⟨2, ['A'], none, .Active⟩ (by decide)).2.1 'B').2 (by decide) |>.2⟩

/-- C2 evidence: `Dictionary::random_word` applies no word-length filter at
all.  A dictionary registered with word length 5 whose backing file holds only
the 3-character line "ABC" happily returns "ABC" instead of failing with
`WordNotFound` (the spec's NoWordOfLength); the dictionary's `length` field is
not consulted anywhere in `random_word`. -/
theorem random_word_ignores_length :
    (random_word ⟨some ["ABC"]⟩ 0 0).1 = .ok "ABC" ∧
    "ABC".length = 3 ∧
    (random_word ⟨some ["ABC"]⟩ 0 0).1 ≠ .error DictionaryError.WordNotFound := by
  exact ⟨rfl, rfl, fun h => nomatch h⟩

/-- C3 evidence: every `random_word` call reads the backing source again — the
`Lazy` cell memoizes only the loader closure, never the loaded contents — so
after two calls the backing file has been read twice, refuting the
read-at-most-once caching invariant. -/
theorem random_word_rereads_backing :
    (∀ (b : Backing) (pick reads : Nat), (random_word b pick reads).2 = reads + 1) ∧
    (random_word ⟨some ["HELLO"]⟩ 1 ((random_word ⟨some ["HELLO"]⟩ 0 0).2)).2 = 2 := by
  constructor
  · intro b pick reads
    unfold random_word
    cases hload : load_dictionary b with
    | error e => rfl
    | ok contents => cases hchoose : choose contents pick <;> simp [hload, hchoose]
  · rfl

/-- C6: `set_dictionary` with an unknown `(name, length)` pair fails with
`DictionaryError` (the spec's SourceNotFound) leaving every field unchanged;
with a known pair it swaps `dictionary` and `word_length` together, so that
afterwards `word_length` equals the active dictionary's length, and leaves
`max_guesses` unchanged. -/
theorem set_dictionary_spec (opts : GameOptions) (name : String) (length : Nat) :
    (get_dictionaries.find? (fun x => x.name == name && x.length == length) = none →
      opts.set_dictionary name length = (.error .DictionaryError, opts)) ∧
    (∀ d, get_dictionaries.find? (fun x => x.name == name && x.length == length) = some d →
      (opts.set_dictionary name length).1 = .ok () ∧
      (opts.set_dictionary name length).2.dictionary = d ∧
      (opts.set_dictionary name length).2.word_length =
        (opts.set_dictionary name length).2.dictionary.length ∧
      (opts.set_dictionary name length).2.max_guesses = opts.max_guesses) := by
  constructor
  · intro h
    unfold GameOptions.set_dictionary
    rw [h]
  · intro d h
    have hd := List.find?_some h
    have hlen : d.length = length := by
      have := (Bool.and_eq_true _ _).mp hd |>.2
      exact beq_iff_eq.mp this
    unfold GameOptions.set_dictionary
    rw [h]
    exact ⟨rfl, rfl, by simp [hlen], rfl⟩

/-- Witness for `set_dictionary_spec`: the pair ("Wordle", 9) is absent from
the registry and leaves the options unchanged; ("Scrabble", 6) is present and
swaps both fields together. -/
theorem set_dictionary_spec_witness :
    (GameOptions.set_dictionary ⟨5, 6, ⟨"Wordle", 5, "data/wordle.txt"⟩⟩ "Wordle" 9 =
      (.error .DictionaryError, ⟨5, 6, ⟨"Wordle", 5, "data/wordle.txt"⟩⟩)) ∧
    ((GameOptions.set_dictionary ⟨5, 6, ⟨"Wordle", 5, "data/wordle.txt"⟩⟩ "Scrabble" 6).1 =
        .ok () ∧
      (GameOptions.set_dictionary ⟨5, 6, ⟨"Wordle", 5, "data/wordle.txt"⟩⟩ "Scrabble" 6).2.word_length =
        (GameOptions.set_dictionary ⟨5, 6, ⟨"Wordle", 5, "data/wordle.txt"⟩⟩ "Scrabble" 6).2.dictionary.length) :=
  ⟨(set_dictionary_spec ⟨5, 6, ⟨"Wordle", 5, "data/wordle.txt"⟩⟩ "Wordle" 9).1 (by decide),
   ⟨((set_dictionary_spec ⟨5, 6, ⟨"Wordle", 5, "data/wordle.txt"⟩⟩ "Scrabble" 6).2
        ⟨"Scrabble", 6, "data/scrabble.txt"⟩ (by decide)).1,
    ((set_dictionary_spec ⟨5, 6, ⟨"Wordle", 5, "data/wordle.txt"⟩⟩ "Scrabble" 6).2
        ⟨"Scrabble", 6, "data/scrabble.txt"⟩ (by decide)).2.2.1⟩⟩

/-! ### Arithmetic facts about `asciiUpper` -/

lemma char_le_iff_toNat (a b : Char) : a ≤ b ↔ a.toNat ≤ b.toNat := by
  rw [Char.le_def]
  exact ⟨fun h => h, fun h => h⟩

lemma toNat_ofNat_valid (n : Nat) (h : n.isValidChar) : (Char.ofNat n).toNat = n := by
  simp [Char.ofNat, h, Char.ofNatAux, Char.toNat, UInt32.toNat, BitVec.toNat_ofNatLt]

lemma asciiUpper_toNat (c : Char) :
    (asciiUpper c).toNat =
      if 97 ≤ c.toNat ∧ c.toNat ≤ 122 then c.toNat - 32 else c.toNat := by
  have ha : ('a' : Char).toNat = 97 := by decide
  have hz : ('z' : Char).toNat = 122 := by decide
  unfold asciiUpper
  split
  · rename_i h
    obtain ⟨h1, h2⟩ := h
    rw [char_le_iff_toNat, ha] at h1
    rw [char_le_iff_toNat, hz] at h2
    rw [toNat_ofNat_valid _ (Or.inl (by omega))]
    rw [if_pos ⟨h1, h2⟩]
  · rename_i h
    rw [if_neg]
    intro hcon
    obtain ⟨h1, h2⟩ := hcon
    refine h ⟨?_, ?_⟩
    · rw [char_le_iff_toNat, ha]; exact h1
    · rw [char_le_iff_toNat, hz]; exact h2

lemma asciiUpper_eq_self (c : Char) (h : ¬(97 ≤ c.toNat ∧ c.toNat ≤ 122)) :
    asciiUpper c = c := by
  have ha : ('a' : Char).toNat = 97 := by decide
  have hz : ('z' : Char).toNat = 122 := by decide
  unfold asciiUpper
  rw [if_neg]
  intro hcon
  obtain ⟨h1, h2⟩ := hcon
  rw [char_le_iff_toNat, ha] at h1
  rw [char_le_iff_toNat, hz] at h2
  exact h ⟨h1, h2⟩

lemma asciiUpper_idem (c : Char) : asciiUpper (asciiUpper c) = asciiUpper c := by
  apply asciiUpper_eq_self
  rw [asciiUpper_toNat]
  split
  · rename_i h; omega
  · rename_i h; exact h

lemma asciiUpper_charMIN : asciiUpper charMIN = charMIN := by decide

/-! ### Small list helpers -/

lemma set_get_self {α : Type} (l : List α) (i : Nat) (a : α) (h : i < l.length) :
    (l.set i a)[i]? = some a := by
  rw [List.getElem?_set_self]
  simp [h]

lemma set_get_ne {α : Type} (l : List α) (i j : Nat) (a : α) (h : i ≠ j) :
    (l.set i a)[j]? = l[j]? :=
  List.getElem?_set_ne h

lemma position_some {p : Char → Bool} : ∀ {l : List Char} {pos : Nat},
    position p l = some pos → pos < l.length ∧ ∃ a, l[pos]? = some a ∧ p a = true := by
  intro l
  induction l with
  | nil => intro pos h; simp [position] at h
  | cons a l ih =>
    intro pos h
    unfold position at h
    split at h
    · rename_i hp
      cases h
      exact ⟨by simp, a, by simp, hp⟩
    · rename_i hp
      obtain ⟨q, hq, hq2⟩ := Option.map_eq_some'.mp h
      obtain ⟨hlt, b, hb, hpb⟩ := ih hq
      subst hq2
      exact ⟨by simpa using Nat.succ_lt_succ hlt, b, by simpa using hb, hpb⟩

/-! ### Step equations for the scoring passes -/

lemma pass1_cons_hit {g : Char} {rest : List Char} {i : Nat} {ans : List Char}
    {res : List LetterResult} {a : Char} {r : LetterResult}
    (ha : ans[i]? = some a) (hc : g = asciiUpper a) (hr : res[i]? = some r) :
    pass1 (g :: rest) i ans res =
      pass1 rest (i + 1) (ans.set i charMIN) (res.set i .Correct) := by
  simp [pass1, ha, hr, hc]

lemma pass1_cons_miss {g : Char} {rest : List Char} {i : Nat} {ans : List Char}
    {res : List LetterResult} {a : Char}
    (ha : ans[i]? = some a) (hc : ¬ g = asciiUpper a) :
    pass1 (g :: rest) i ans res = pass1 rest (i + 1) ans res := by
  simp [pass1, ha, hc]

lemma pass2_cons_skip {g : Char} {rest : List Char} {i : Nat} {ans : List Char}
    {res : List LetterResult}
    (hr : res[i]? = some LetterResult.Correct) :
    pass2 (g :: rest) i ans res = pass2 rest (i + 1) ans res := by
  simp [pass2, hr]

lemma pass2_cons_found {g : Char} {rest : List Char} {i : Nat} {ans : List Char}
    {res : List LetterResult} {r : LetterResult} {pos : Nat}
    (hr : res[i]? = some r) (hne : r ≠ LetterResult.Correct)
    (hpos : position (fun a => asciiUpper a == g) ans = some pos) :
    pass2 (g :: rest) i ans res =
      pass2 rest (i + 1) (ans.set pos charMIN) (res.set i .Present) := by
  simp [pass2, hr, hne, hpos]

lemma pass2_cons_notfound {g : Char} {rest : List Char} {i : Nat} {ans : List Char}
    {res : List LetterResult} {r : LetterResult}
    (hr : res[i]? = some r) (hne : r ≠ LetterResult.Correct)
    (hpos : position (fun a => asciiUpper a == g) ans = none) :
    pass2 (g :: rest) i ans res = pass2 rest (i + 1) ans res := by
  simp [pass2, hr, hne, hpos]

/-! ### Characterization of the two passes -/

/-- Pass 1 succeeds when all accessed indices are in bounds; it modifies only
the window of indices `[i, i + guess length)`, and within the window it marks
`Correct` and consumes the answer character exactly at the positions where the
guess agrees with the (already uppercased) answer character. -/
lemma pass1_char : ∀ (gl : List Char) (i : Nat) (ans : List Char) (res : List LetterResult),
    i + gl.length ≤ ans.length → i + gl.length ≤ res.length →
    ∃ ans' res', pass1 gl i ans res = some (ans', res') ∧
      ans'.length = ans.length ∧ res'.length = res.length ∧
      (∀ j, (j < i ∨ i + gl.length ≤ j) → res'[j]? = res[j]? ∧ ans'[j]? = ans[j]?) ∧
      (∀ j (hj : j < gl.length) (a : Char), ans[i + j]? = some a →
        (gl.get ⟨j, hj⟩ = asciiUpper a →
            res'[i + j]? = some LetterResult.Correct ∧ ans'[i + j]? = some charMIN) ∧
        (gl.get ⟨j, hj⟩ ≠ asciiUpper a →
            res'[i + j]? = res[i + j]? ∧ ans'[i + j]? = some a))
  | [], i, ans, res, h1, h2 =>
    ⟨ans, res, rfl, rfl, rfl, fun j hj => ⟨rfl, rfl⟩, fun j hj => absurd hj (by simp)⟩
  | g :: rest, i, ans, res, h1, h2 => by
    simp only [List.length_cons] at h1 h2
    have hia : i < ans.length := by omega
    have hir : i < res.length := by omega
    have ha0 : ans[i]? = some ans[i] := List.getElem?_eq_getElem hia
    have hr0 : res[i]? = some res[i] := List.getElem?_eq_getElem hir
    by_cases hcond : g = asciiUpper ans[i]
    · obtain ⟨ans', res', heq, hlen1, hlen2, houts, hwin⟩ :=
        pass1_char rest (i + 1) (ans.set i charMIN) (res.set i .Correct)
          (by rw [List.length_set]; omega) (by rw [List.length_set]; omega)
      rw [List.length_set] at hlen1
      rw [List.length_set] at hlen2
      refine ⟨ans', res', ?_, hlen1, hlen2, ?_, ?_⟩
      · rw [pass1_cons_hit ha0 hcond hr0]
        exact heq
      · intro j hj
        simp only [List.length_cons] at hj
        have hne : i ≠ j := by omega
        have := houts j (by omega)
        rwa [set_get_ne res i j _ hne, set_get_ne ans i j _ hne] at this
      · intro j hj a hja
        match j with
        | 0 =>
          have haa : a = ans[i] := by
            rw [Nat.add_zero] at hja
            exact (Option.some.inj (hja ▸ ha0.symm)).symm
          subst haa
          constructor
          · intro _
            have hout := houts i (by omega)
            rw [set_get_self res i _ hir, set_get_self ans i _ hia] at hout
            rw [Nat.add_zero]
            exact hout
          · intro hcon
            exact absurd hcond (by simpa using hcon)
        | jj + 1 =>
          have hidx : i + (jj + 1) = (i + 1) + jj := by omega
          have hja' : (ans.set i charMIN)[(i + 1) + jj]? = some a := by
            rw [set_get_ne ans i _ _ (by omega), ← hidx]
            exact hja
          have hw := hwin jj (by simpa using Nat.lt_of_succ_lt_succ hj) a hja'
          have hget : (g :: rest).get ⟨jj + 1, hj⟩ = rest.get ⟨jj, by simpa using Nat.lt_of_succ_lt_succ hj⟩ := rfl
          rw [hget, hidx]
          constructor
          · intro hh
            exact hw.1 hh
          · intro hh
            have := hw.2 hh
            rwa [set_get_ne res i _ _ (by omega)] at this
    · obtain ⟨ans', res', heq, hlen1, hlen2, houts, hwin⟩ :=
        pass1_char rest (i + 1) ans res (by omega) (by omega)
      refine ⟨ans', res', ?_, hlen1, hlen2, ?_, ?_⟩
      · rw [pass1_cons_miss ha0 hcond]
        exact heq
      · intro j hj
        simp only [List.length_cons] at hj
        exact houts j (by omega)
      · intro j hj a hja
        match j with
        | 0 =>
          have haa : a = ans[i] := by
            rw [Nat.add_zero] at hja
            exact (Option.some.inj (hja ▸ ha0.symm)).symm
          subst haa
          constructor
          · intro hcon
            exact absurd hcon hcond
          · intro _
            have hout := houts i (by omega)
            rw [Nat.add_zero, hout.1, hout.2]
            exact ⟨rfl, ha0⟩
        | jj + 1 =>
          have hidx : i + (jj + 1) = (i + 1) + jj := by omega
          have hja' : ans[(i + 1) + jj]? = some a := by rw [← hidx]; exact hja
          have hw := hwin jj (by simpa using Nat.lt_of_succ_lt_succ hj) a hja'
          have hget : (g :: rest).get ⟨jj + 1, hj⟩ = rest.get ⟨jj, by simpa using Nat.lt_of_succ_lt_succ hj⟩ := rfl
          rw [hget, hidx]
          exact hw

/-- Pass 2 succeeds when the result indices it reads are in bounds; it never
writes `Correct` (it preserves existing `Correct` entries in both directions),
and when every window position is already `Correct` it changes nothing. -/
lemma pass2_char : ∀ (gl : List Char) (i : Nat) (ans : List Char) (res : List LetterResult),
    i + gl.length ≤ res.length →
    ∃ ans' res', pass2 gl i ans res = some (ans', res') ∧
      ans'.length = ans.length ∧ res'.length = res.length ∧
      (∀ j : Nat, res[j]? = some LetterResult.Correct → res'[j]? = some LetterResult.Correct) ∧
      (∀ j : Nat, res'[j]? = some LetterResult.Correct → res[j]? = some LetterResult.Correct) ∧
      ((∀ j, j < gl.length → res[i + j]? = some LetterResult.Correct) →
        ans' = ans ∧ res' = res)
  | [], i, ans, res, h =>
    ⟨ans, res, rfl, rfl, rfl, fun _ h => h, fun _ h => h, fun _ => ⟨rfl, rfl⟩⟩
  | g :: rest, i, ans, res, h => by
    simp only [List.length_cons] at h
    have hir : i < res.length := by omega
    have hr0 : res[i]? = some res[i] := List.getElem?_eq_getElem hir
    by_cases hcor : res[i] = LetterResult.Correct
    · obtain ⟨ans', res', heq, hl1, hl2, hpres, hback, hall⟩ :=
        pass2_char rest (i + 1) ans res (by omega)
      refine ⟨ans', res', ?_, hl1, hl2, hpres, hback, ?_⟩
      · rw [pass2_cons_skip (by rw [hr0, hcor])]
        exact heq
      · intro hwin
        apply hall
        intro j hj
        have := hwin (j + 1) (by simp only [List.length_cons]; omega)
        rwa [show i + (j + 1) = (i + 1) + j by omega] at this
    · cases hpos : position (fun a => asciiUpper a == g) ans with
      | some pos =>
        obtain ⟨ans', res', heq, hl1, hl2, hpres, hback, hall⟩ :=
          pass2_char rest (i + 1) (ans.set pos charMIN) (res.set i .Present)
            (by rw [List.length_set]; omega)
        rw [List.length_set] at hl1
        rw [List.length_set] at hl2
        refine ⟨ans', res', ?_, hl1, hl2, ?_, ?_, ?_⟩
        · rw [pass2_cons_found hr0 hcor hpos]
          exact heq
        · intro j hj
          have hne : i ≠ j := by
            intro hcon
            subst hcon
            rw [hr0] at hj
            exact hcor (Option.some.inj hj)
          apply hpres
          rwa [set_get_ne res i j _ hne]
        · intro j hj
          have hb := hback j hj
          by_cases hji : i = j
          · subst hji
            rw [set_get_self res i _ hir] at hb
            exact absurd hb (by simp)
          · rwa [set_get_ne res i j _ hji] at hb
        · intro hwin
          exfalso
          have := hwin 0 (by simp)
          rw [Nat.add_zero, hr0] at this
          exact hcor (Option.some.inj this)
      | none =>
        obtain ⟨ans', res', heq, hl1, hl2, hpres, hback, hall⟩ :=
          pass2_char rest (i + 1) ans res (by omega)
        refine ⟨ans', res', ?_, hl1, hl2, hpres, hback, ?_⟩
        · rw [pass2_cons_notfound hr0 hcor hpos]
          exact heq
        · intro hwin
          exfalso
          have := hwin 0 (by simp)
          rw [Nat.add_zero, hr0] at this
          exact hcor (Option.some.inj this)

lemma check_guess_eq (answer : String) (wl : Nat) (gl : List Char)
    {ans1 ans2 : List Char} {res1 res2 : List LetterResult}
    (h1 : pass1 gl 0 (answer.data.map asciiUpper) (List.replicate wl .Absent) = some (ans1, res1))
    (h2 : pass2 gl 0 ans1 res1 = some (ans2, res2)) :
    check_guess answer wl gl = some res2 := by
  simp [check_guess, h1, h2]

/-- `check_guess` succeeds (no indexing panic) whenever the guess is no longer
than the answer and no longer than the configured word length, and the result
then has exactly `word_length` entries. -/
lemma check_guess_some (answer : String) (wl : Nat) (gl : List Char)
    (h1 : gl.length ≤ answer.data.length) (h2 : gl.length ≤ wl) :
    ∃ r, check_guess answer wl gl = some r ∧ r.length = wl := by
  obtain ⟨ans1, res1, e1, l1, l2, -, -⟩ :=
    pass1_char gl 0 (answer.data.map asciiUpper) (List.replicate wl .Absent)
      (by simpa using h1) (by simpa using h2)
  simp only [List.length_replicate] at l2
  obtain ⟨ans2, res2, e2, m1, m2, -, -, -⟩ :=
    pass2_char gl 0 ans1 res1 (by omega)
  exact ⟨res2, check_guess_eq answer wl gl e1 e2, by omega⟩

/-- A full guess scores all-`Correct` exactly when it coincides with the
ASCII-uppercased answer (`i.e.` the guess equals the answer
case-insensitively, guesses being stored uppercased). -/
lemma check_guess_all_correct_iff (answer : String) (gl : List Char)
    (hlen : answer.data.length = gl.length) :
    (∃ r, check_guess answer gl.length gl = some r ∧ ∀ x ∈ r, x = LetterResult.Correct) ↔
      gl = answer.data.map asciiUpper := by
  obtain ⟨ans1, res1, e1, l1, l2, houts1, hwin1⟩ :=
    pass1_char gl 0 (answer.data.map asciiUpper) (List.replicate gl.length .Absent)
      (by simp [hlen]) (by simp)
  simp only [List.length_replicate] at l2
  obtain ⟨ans2, res2, e2, m1, m2, hpres, hback, hall⟩ :=
    pass2_char gl 0 ans1 res1 (by omega)
  have hcg : check_guess answer gl.length gl = some res2 :=
    check_guess_eq answer gl.length gl e1 e2
  have hmaplen : (answer.data.map asciiUpper).length = gl.length := by simp [hlen]
  constructor
  · rintro ⟨r, hr, hcor⟩
    rw [hcg] at hr
    obtain rfl : res2 = r := Option.some.inj hr
    apply List.ext_getElem?
    intro j
    by_cases hj : j < gl.length
    · have hjd : j < answer.data.length := by omega
      have hans : (answer.data.map asciiUpper)[j]? =
          some (asciiUpper (answer.data.get ⟨j, hjd⟩)) := by
        rw [List.getElem?_map, List.getElem?_eq_getElem hjd]
        rfl
      have hw := hwin1 j hj (asciiUpper (answer.data.get ⟨j, hjd⟩)) (by simpa using hans)
      have hjr : j < res2.length := by omega
      have hres2j : res2[j]? = some LetterResult.Correct := by
        rw [List.getElem?_eq_getElem hjr, hcor _ (List.getElem_mem hjr)]
      have hres1j := hback j hres2j
      by_cases hcase : gl.get ⟨j, hj⟩ = asciiUpper (asciiUpper (answer.data.get ⟨j, hjd⟩))
      · rw [List.getElem?_eq_getElem hj, hans]
        show some (gl.get ⟨j, hj⟩) = _
        rw [hcase, asciiUpper_idem]
      · have habs := (hw.2 hcase).1
        rw [Nat.zero_add] at habs
        rw [habs] at hres1j
        rw [List.getElem?_replicate, if_pos hj] at hres1j
        exact absurd (Option.some.inj hres1j) (by simp)
    · rw [List.getElem?_eq_none (by omega), List.getElem?_eq_none (by omega)]
  · intro hgl
    have hres1 : ∀ j : Nat, j < gl.length → res1[j]? = some LetterResult.Correct := by
      intro j hj
      have hjd : j < answer.data.length := by omega
      have hans : (answer.data.map asciiUpper)[j]? =
          some (asciiUpper (answer.data.get ⟨j, hjd⟩)) := by
        rw [List.getElem?_map, List.getElem?_eq_getElem hjd]
        rfl
      have hw := hwin1 j hj (asciiUpper (answer.data.get ⟨j, hjd⟩)) (by simpa using hans)
      have hglj : gl.get ⟨j, hj⟩ = asciiUpper (asciiUpper (answer.data.get ⟨j, hjd⟩)) := by
        rw [asciiUpper_idem]
        have : gl[j]? = (answer.data.map asciiUpper)[j]? := by rw [hgl]
        rw [List.getElem?_eq_getElem hj, hans] at this
        exact Option.some.inj this
      have := (hw.1 hglj).1
      rwa [Nat.zero_add] at this
    obtain ⟨-, hres⟩ := hall (by intro j hj; simpa using hres1 j hj)
    subst hres
    refine ⟨res2, hcg, ?_⟩
    intro x hx
    obtain ⟨j, hjx⟩ := List.mem_iff_getElem?.mp hx
    have hjlt : j < res2.length := by
      rcases Nat.lt_or_ge j res2.length with h | h
      · exact h
      · rw [List.getElem?_eq_none h] at hjx
        cases hjx
    have := hres1 j (by omega)
    rw [hjx] at this
    exact Option.some.inj this

/-! ### Equivalence of `check_guess` with the spec's scoring rule -/

lemma forall2_set {ans : List Char} {pool : List (Option Char)}
    (h : List.Forall₂ OccRel ans pool) :
    ∀ (i : Nat) {x : Char} {y : Option Char}, OccRel x y →
      List.Forall₂ OccRel (ans.set i x) (pool.set i y) := by
  induction h with
  | nil => intro i x y hxy; exact List.Forall₂.nil
  | cons hab htail ih =>
    intro i x y hxy
    cases i with
    | zero => exact List.Forall₂.cons hxy htail
    | succ n => exact List.Forall₂.cons hab (ih n hxy)

lemma forall2_getElem {ans : List Char} {pool : List (Option Char)}
    (h : List.Forall₂ OccRel ans pool) : ∀ i : Nat,
      (ans[i]? = none ∧ pool[i]? = none) ∨
      (∃ x y, ans[i]? = some x ∧ pool[i]? = some y ∧ OccRel x y) := by
  induction h with
  | nil => intro i; left; simp
  | cons hab htail ih =>
    intro i
    cases i with
    | zero => right; exact ⟨_, _, by simp, by simp, hab⟩
    | succ n =>
      rcases ih n with ⟨h1, h2⟩ | ⟨x, y, h1, h2, h3⟩
      · exact Or.inl ⟨by simpa using h1, by simpa using h2⟩
      · right; exact ⟨x, y, by simpa using h1, by simpa using h2, h3⟩

lemma position_specFind {g : Char} (hg1 : asciiUpper g = g) (hg2 : g ≠ charMIN)
    {ans : List Char} {pool : List (Option Char)} (h : List.Forall₂ OccRel ans pool) :
    position (fun a => asciiUpper a == g) ans = specFind g pool := by
  induction h with
  | nil => rfl
  | cons hab htail ih =>
    rename_i x y l1 l2
    cases y with
    | some a =>
      have hxa : x = asciiUpper a := hab
      by_cases hcase : asciiUpper a = g
      · rw [show position (fun a => asciiUpper a == g) (x :: l1) = some 0 from by
          simp [position, hxa, asciiUpper_idem, hcase, hg1]]
        rw [show specFind g (some a :: l2) = some 0 from by
          simp [specFind, hg1, hcase]]
      · rw [show position (fun a => asciiUpper a == g) (x :: l1) =
            (position (fun a => asciiUpper a == g) l1).map (· + 1) from by
          simp [position, hxa, asciiUpper_idem, hcase, hg1]]
        rw [show specFind g (some a :: l2) = (specFind g l2).map (· + 1) from by
          simp [specFind, hg1, hcase]]
        rw [ih]
    | none =>
      have hxm : x = charMIN := hab
      rw [show position (fun a => asciiUpper a == g) (x :: l1) =
          (position (fun a => asciiUpper a == g) l1).map (· + 1) from by
        simp [position, hxm, asciiUpper_charMIN]
        exact fun hcon => absurd hcon.symm hg2]
      rw [show specFind g (none :: l2) = (specFind g l2).map (· + 1) from rfl]
      rw [ih]

lemma specPass1_cons_hit {g : Char} {rest : List Char} {i : Nat}
    {pool : List (Option Char)} {res : List LetterResult} {a : Char}
    (hy : pool[i]? = some (some a)) (hc : asciiUpper g = asciiUpper a) :
    specPass1 (g :: rest) i pool res =
      specPass1 rest (i + 1) (pool.set i none) (res.set i .Correct) := by
  simp [specPass1, hy, hc]

lemma specPass1_cons_miss {g : Char} {rest : List Char} {i : Nat}
    {pool : List (Option Char)} {res : List LetterResult} {a : Char}
    (hy : pool[i]? = some (some a)) (hc : ¬ asciiUpper g = asciiUpper a) :
    specPass1 (g :: rest) i pool res = specPass1 rest (i + 1) pool res := by
  simp [specPass1, hy, hc]

lemma specPass1_cons_consumed {g : Char} {rest : List Char} {i : Nat}
    {pool : List (Option Char)} {res : List LetterResult}
    (hy : pool[i]? = some none) :
    specPass1 (g :: rest) i pool res = specPass1 rest (i + 1) pool res := by
  simp [specPass1, hy]

lemma specPass2_cons_skip {g : Char} {rest : List Char} {i : Nat}
    {pool : List (Option Char)} {res : List LetterResult}
    (h : res[i]? = some LetterResult.Correct) :
    specPass2 (g :: rest) i pool res = specPass2 rest (i + 1) pool res := by
  simp [specPass2, h]

lemma specPass2_cons_found {g : Char} {rest : List Char} {i : Nat}
    {pool : List (Option Char)} {res : List LetterResult} {pos : Nat}
    (h : ¬ res[i]? = some LetterResult.Correct) (hf : specFind g pool = some pos) :
    specPass2 (g :: rest) i pool res =
      specPass2 rest (i + 1) (pool.set pos none) (res.set i .Present) := by
  simp [specPass2, h, hf]

lemma specPass2_cons_notfound {g : Char} {rest : List Char} {i : Nat}
    {pool : List (Option Char)} {res : List LetterResult}
    (h : ¬ res[i]? = some LetterResult.Correct) (hf : specFind g pool = none) :
    specPass2 (g :: rest) i pool res = specPass2 rest (i + 1) pool res := by
  simp [specPass2, h, hf]

/-- Pass 1 of the code computes the same result vector as pass 1 of the
spec's rule, and the two consumption representations stay related, provided
the guess consists of uppercase-stable non-NUL characters and the indices
stay in bounds. -/
lemma pass1_eq : ∀ (gl : List Char) (i : Nat) (ans : List Char)
    (pool : List (Option Char)) (res : List LetterResult),
    List.Forall₂ OccRel ans pool →
    (∀ c ∈ gl, asciiUpper c = c ∧ c ≠ charMIN) →
    i + gl.length ≤ ans.length → i + gl.length ≤ res.length →
    ∃ ans' pool' res', pass1 gl i ans res = some (ans', res') ∧
      specPass1 gl i pool res = (pool', res') ∧
      List.Forall₂ OccRel ans' pool' ∧
      ans'.length = ans.length ∧ res'.length = res.length
  | [], i, ans, pool, res, hrel, hg, h1, h2 => ⟨ans, pool, res, rfl, rfl, hrel, rfl, rfl⟩
  | g :: rest, i, ans, pool, res, hrel, hg, h1, h2 => by
    simp only [List.length_cons] at h1 h2
    have hia : i < ans.length := by omega
    have hir : i < res.length := by omega
    have hga : asciiUpper g = g := (hg g (by simp)).1
    have hgm : g ≠ charMIN := (hg g (by simp)).2
    have hgrest : ∀ c ∈ rest, asciiUpper c = c ∧ c ≠ charMIN :=
      fun c hc => hg c (by simp [hc])
    rcases forall2_getElem hrel i with ⟨hn, -⟩ | ⟨x, y, hx, hy, hxy⟩
    · exact absurd hn (by rw [List.getElem?_eq_getElem hia]; simp)
    · cases y with
      | some a =>
        have hxa : x = asciiUpper a := hxy
        by_cases hcond : g = asciiUpper x
        · obtain ⟨ans', pool', res', e1, e2, hrel', hl1, hl2⟩ :=
            pass1_eq rest (i + 1) (ans.set i charMIN) (pool.set i none) (res.set i .Correct)
              (forall2_set hrel i (show OccRel charMIN none from rfl)) hgrest
              (by rw [List.length_set]; omega) (by rw [List.length_set]; omega)
          rw [List.length_set] at hl1
          rw [List.length_set] at hl2
          refine ⟨ans', pool', res', ?_, ?_, hrel', hl1, hl2⟩
          · rw [pass1_cons_hit hx hcond (List.getElem?_eq_getElem hir)]
            exact e1
          · have hspec : asciiUpper g = asciiUpper a := by
              rw [hga, hcond, hxa, asciiUpper_idem]
            rw [specPass1_cons_hit hy hspec]
            exact e2
        · obtain ⟨ans', pool', res', e1, e2, hrel', hl1, hl2⟩ :=
            pass1_eq rest (i + 1) ans pool res hrel hgrest (by omega) (by omega)
          refine ⟨ans', pool', res', ?_, ?_, hrel', hl1, hl2⟩
          · rw [pass1_cons_miss hx hcond]
            exact e1
          · have hspec : ¬ asciiUpper g = asciiUpper a := by
              rw [hga]
              intro hcon
              exact hcond (by rw [hxa, asciiUpper_idem, ← hcon])
            rw [specPass1_cons_miss hy hspec]
            exact e2
      | none =>
        have hxm : x = charMIN := hxy
        have hcond : ¬ g = asciiUpper x := by
          rw [hxm, asciiUpper_charMIN]
          exact hgm
        obtain ⟨ans', pool', res', e1, e2, hrel', hl1, hl2⟩ :=
          pass1_eq rest (i + 1) ans pool res hrel hgrest (by omega) (by omega)
        refine ⟨ans', pool', res', ?_, ?_, hrel', hl1, hl2⟩
        · rw [pass1_cons_miss hx hcond]
          exact e1
        · rw [specPass1_cons_consumed hy]
          exact e2

/-- Pass 2 of the code computes the same result vector as pass 2 of the
spec's rule, under the same side conditions. -/
lemma pass2_eq : ∀ (gl : List Char) (i : Nat) (ans : List Char)
    (pool : List (Option Char)) (res : List LetterResult),
    List.Forall₂ OccRel ans pool →
    (∀ c ∈ gl, asciiUpper c = c ∧ c ≠ charMIN) →
    i + gl.length ≤ res.length →
    ∃ ans' pool' res', pass2 gl i ans res = some (ans', res') ∧
      specPass2 gl i pool res = (pool', res') ∧
      List.Forall₂ OccRel ans' pool'
  | [], i, ans, pool, res, hrel, hg, h2 => ⟨ans, pool, res, rfl, rfl, hrel⟩
  | g :: rest, i, ans, pool, res, hrel, hg, h2 => by
    simp only [List.length_cons] at h2
    have hir : i < res.length := by omega
    have hr0 : res[i]? = some res[i] := List.getElem?_eq_getElem hir
    have hga : asciiUpper g = g := (hg g (by simp)).1
    have hgm : g ≠ charMIN := (hg g (by simp)).2
    have hgrest : ∀ c ∈ rest, asciiUpper c = c ∧ c ≠ charMIN :=
      fun c hc => hg c (by simp [hc])
    by_cases hcor : res[i] = LetterResult.Correct
    · obtain ⟨ans', pool', res', e1, e2, hrel'⟩ :=
        pass2_eq rest (i + 1) ans pool res hrel hgrest (by omega)
      refine ⟨ans', pool', res', ?_, ?_, hrel'⟩
      · rw [pass2_cons_skip (by rw [hr0, hcor])]
        exact e1
      · rw [specPass2_cons_skip (by rw [hr0, hcor])]
        exact e2
    · have hfind := position_specFind hga hgm hrel
      have hnotc : ¬ res[i]? = some LetterResult.Correct := by
        rw [hr0]
        intro hcon
        exact hcor (Option.some.inj hcon)
      cases hpos : position (fun a => asciiUpper a == g) ans with
      | some pos =>
        obtain ⟨ans', pool', res', e1, e2, hrel'⟩ :=
          pass2_eq rest (i + 1) (ans.set pos charMIN) (pool.set pos none)
            (res.set i .Present)
            (forall2_set hrel pos (show OccRel charMIN none from rfl)) hgrest
            (by rw [List.length_set]; omega)
        refine ⟨ans', pool', res', ?_, ?_, hrel'⟩
        · rw [pass2_cons_found hr0 hcor hpos]
          exact e1
        · rw [specPass2_cons_found hnotc (by rw [← hfind]; exact hpos)]
          exact e2
      | none =>
        obtain ⟨ans', pool', res', e1, e2, hrel'⟩ :=
          pass2_eq rest (i + 1) ans pool res hrel hgrest (by omega)
        refine ⟨ans', pool', res', ?_, ?_, hrel'⟩
        · rw [pass2_cons_notfound hr0 hcor hpos]
          exact e1
        · rw [specPass2_cons_notfound hnotc (by rw [← hfind]; exact hpos)]
          exact e2

lemma forall2_init : ∀ (l : List Char),
    List.Forall₂ OccRel (l.map asciiUpper) (l.map some)
  | [] => List.Forall₂.nil
  | _ :: l => List.Forall₂.cons rfl (forall2_init l)

/-- C1 counterexample: for answer REACT and guess TRACE the code does not
produce the outcomes [Present, Present, Correct, Present, Present] stated by
the claim — both words hold C at index 3, so the exact-match pass scores that
position Correct. -/
theorem check_guess_react_trace_not_spec :
    check_guess "REACT" 5 ['T', 'R', 'A', 'C', 'E'] ≠
      some [.Present, .Present, .Correct, .Present, .Present] := by
  decide

/-- C1 (amended): for every full guess of normalized letters
(uppercase-stable, non-NUL characters, as produced by letter entry) against an
answer of the same length, `check_guess` implements exactly the spec's
two-pass duplicate-letter rule (`specScore`); for answer ALLOY and guess LOLLY
the outcomes are [Present, Present, Correct, Absent, Correct], and for answer
REACT and guess TRACE they are [Present, Present, Correct, Correct, Present]. -/
theorem check_guess_two_pass :
    (∀ (answer : String) (gl : List Char),
        answer.data.length = gl.length →
        (∀ c ∈ gl, asciiUpper c = c ∧ c ≠ charMIN) →
        check_guess answer gl.length gl = some (specScore answer.data gl)) ∧
    check_guess "ALLOY" 5 ['L', 'O', 'L', 'L', 'Y'] =
      some [.Present, .Present, .Correct, .Absent, .Correct] ∧
    check_guess "REACT" 5 ['T', 'R', 'A', 'C', 'E'] =
      some [.Present, .Present, .Correct, .Correct, .Present] := by
  refine ⟨?_, by decide, by decide⟩
  intro answer gl hlen hletters
  obtain ⟨ans1, pool1, res1, e1, s1, hrel1, hl1, hl2⟩ :=
    pass1_eq gl 0 (answer.data.map asciiUpper) (answer.data.map some)
      (List.replicate gl.length .Absent) (forall2_init answer.data) hletters
      (by simp [hlen]) (by simp)
  simp only [List.length_replicate] at hl2
  obtain ⟨ans2, pool2, res2, e2, s2, -⟩ :=
    pass2_eq gl 0 ans1 pool1 res1 hrel1 hletters (by omega)
  rw [check_guess_eq answer gl.length gl e1 e2]
  unfold specScore
  rw [s1]
  show some res2 = some (specPass2 gl 0 pool1 res1).2
  rw [s2]

/-- Witness for `check_guess_two_pass` at answer CRANE and guess CARNE. -/
theorem check_guess_two_pass_witness :
    check_guess "CRANE" 5 ['C', 'A', 'R', 'N', 'E'] =
      some (specScore "CRANE".data ['C', 'A', 'R', 'N', 'E']) :=
  check_guess_two_pass.1 "CRANE" ['C', 'A', 'R', 'N', 'E'] (by decide) (by decide)

/-- C10: `check_guess` is index-safe exactly under the precondition that the
answer has at least word_length characters: with a full guess
(guess length = word_length) it succeeds whenever word_length does not exceed
the answer's character count, while for the shorter answer AB with configured
word length 3 the out-of-bounds branch is reached — `random_word` (which
applies no length filter, see C2) can deliver such an answer, and submitting a
full guess in that round hits the panic (`none`). -/
theorem check_guess_index_safety :
    (∀ (answer : String) (wl : Nat) (gl : List Char),
        gl.length = wl → wl ≤ answer.data.length →
        ∃ r, check_guess answer wl gl = some r ∧ r.length = wl) ∧
    check_guess "AB" 3 ['X', 'Y', 'Z'] = none ∧
    (random_word ⟨some ["AB"]⟩ 0 0).1 = .ok "AB" ∧
    GameData.submit_word
        ((((GameData.new "AB" 3 1).add_letter 'x').2.add_letter 'y').2.add_letter 'z').2 =
      none := by
  refine ⟨?_, by decide, rfl, by rfl⟩
  intro answer wl gl h1 h2
  exact check_guess_some answer wl gl (by omega) (by omega)

/-- Witness for `check_guess_index_safety`: with answer ABC (3 characters) and
word length 3 a full guess scores without panic. -/
theorem check_guess_index_safety_witness :
    ∃ r, check_guess "ABC" 3 ['X', 'Y', 'Z'] = some r ∧ r.length = 3 :=
  check_guess_index_safety.1 "ABC" 3 ['X', 'Y', 'Z'] (by decide) (by decide)

/-! ### Round lifecycle: invariants and reachability -/

lemma findActive_append : ∀ (pre : List Guess) (a : Guess) (post : List Guess),
    (∀ g ∈ pre, g.state ≠ GuessState.Active) → a.state = GuessState.Active →
    findActive (pre ++ a :: post) = some (pre.length, a)
  | [], a, post, hpre, ha => by simp [findActive, ha]
  | p :: pre, a, post, hpre, ha => by
    have hp : p.state ≠ GuessState.Active := hpre p (by simp)
    simp only [List.cons_append, findActive, List.append_eq]
    rw [if_neg hp, findActive_append pre a post (fun g hg => hpre g (by simp [hg])) ha]
    rfl

lemma set_at_append {α : Type} (pre : List α) (a : α) (post : List α) (b : α) :
    (pre ++ a :: post).set pre.length b = pre ++ b :: post := by
  rw [List.set_append_right _ _ (le_refl _)]
  simp

lemma set_at_append_succ {α : Type} (pre : List α) (a b : α) (post : List α) (x : α) :
    (pre ++ a :: b :: post).set (pre.length + 1) x = pre ++ a :: x :: post := by
  rw [List.set_append_right _ _ (by omega)]
  simp

lemma getElem_at_append {α : Type} (pre : List α) (a : α) (post : List α) :
    (pre ++ a :: post)[pre.length]? = some a := by
  rw [List.getElem?_append_right (le_refl _)]
  simp

lemma getElem_at_append_succ {α : Type} (pre : List α) (a b : α) (post : List α) :
    (pre ++ a :: b :: post)[pre.length + 1]? = some b := by
  rw [List.getElem?_append_right (by omega)]
  simp

lemma activeAt_findActive {gs : List Guess} {k : Nat} (h : activeAt gs k) :
    ∃ a, findActive gs = some (k, a) ∧ gs[k]? = some a ∧
      a.state = GuessState.Active := by
  obtain ⟨pre, a, post, rfl, rfl, hpre, ha, hpost⟩ := h
  refine ⟨a, ?_, ?_, ha⟩
  · exact findActive_append pre a post (fun g hg => by rw [hpre g hg]; simp) ha
  · exact getElem_at_append pre a post

lemma activeAt_set_same {gs : List Guess} {k : Nat} {g' : Guess} (h : activeAt gs k)
    (hg' : g'.state = GuessState.Active) : activeAt (gs.set k g') k := by
  obtain ⟨pre, a, post, rfl, rfl, hpre, ha, hpost⟩ := h
  exact ⟨pre, g', post, set_at_append pre a post g', rfl, hpre, hg', hpost⟩

lemma make_vec_succ (wl m : Nat) :
    Guess.make_vec wl (m + 1) =
      { Guess.new wl with state := GuessState.Active } :: List.replicate m (Guess.new wl) := by
  unfold Guess.make_vec
  rw [List.range_succ_eq_map]
  simp only [List.map_cons, if_pos rfl, List.map_map]
  congr 1
  have heq : ((fun i => if i = 0 then { Guess.new wl with state := GuessState.Active }
      else Guess.new wl) ∘ Nat.succ) = fun _ : Nat => Guess.new wl := by
    funext i
    simp [Function.comp]
  rw [heq, List.map_const', List.length_range]

lemma guess_new_wf (wl : Nat) : Guess.wf wl (Guess.new wl) := by
  refine ⟨rfl, by simp [Guess.new], ?_, ?_, ?_⟩
  · intro _; exact ⟨rfl, rfl⟩
  · intro h; cases h
  · intro h; cases h

lemma guess_new_active_wf (wl : Nat) :
    Guess.wf wl { Guess.new wl with state := GuessState.Active } := by
  refine ⟨rfl, by simp [Guess.new], ?_, ?_, ?_⟩
  · intro h; cases h
  · intro _; rfl
  · intro h; cases h

lemma wf_new (answer : String) (wl mg : Nat) (h : 0 < mg) :
    (GameData.new answer wl mg).wf := by
  obtain ⟨m, rfl⟩ : ∃ m, mg = m + 1 := ⟨mg - 1, by omega⟩
  refine ⟨by simp [GameData.new, Guess.make_vec], ?_, ?_⟩
  · intro g hg
    rw [show (GameData.new answer wl (m + 1)).guesses = Guess.make_vec wl (m + 1) from rfl,
      make_vec_succ] at hg
    rcases List.mem_cons.mp hg with rfl | hg
    · exact guess_new_active_wf wl
    · rw [List.eq_of_mem_replicate hg]
      exact guess_new_wf wl
  · intro _
    refine ⟨0, [], { Guess.new wl with state := GuessState.Active },
      List.replicate m (Guess.new wl), ?_, rfl, by simp, rfl, ?_⟩
    · rw [show (GameData.new answer wl (m + 1)).guesses = Guess.make_vec wl (m + 1) from rfl,
        make_vec_succ]
      rfl
    · intro g hg
      rw [List.eq_of_mem_replicate hg]
      rfl

/-! ### Equations for the round operations -/

lemma add_letter_not_active (d : GameData) (c : Char)
    (h : ¬ d.game_state = GameState.Active) :
    d.add_letter c = (.error .NoActiveGame, d) := by
  unfold GameData.add_letter
  rw [if_neg h]

lemma delete_letter_not_active (d : GameData)
    (h : ¬ d.game_state = GameState.Active) :
    d.delete_letter = (.error .NoActiveGame, d) := by
  unfold GameData.delete_letter
  rw [if_neg h]

lemma submit_word_not_active (d : GameData)
    (h : ¬ d.game_state = GameState.Active) :
    d.submit_word = some (.error .NoActiveGame, d) := by
  unfold GameData.submit_word
  rw [if_neg h]

lemma add_letter_eq (d : GameData) (c : Char) {k : Nat} {g : Guess}
    (hst : d.game_state = GameState.Active)
    (hfind : findActive d.guesses = some (k, g)) :
    d.add_letter c =
      match g.add_letter (asciiUpper c) with
      | (.error e, _) => (.error e, d)
      | (.ok _, g') => (.ok (), { d with guesses := d.guesses.set k g' }) := by
  unfold GameData.add_letter
  rw [if_pos hst, hfind]

lemma delete_letter_eq (d : GameData) {k : Nat} {g : Guess}
    (hst : d.game_state = GameState.Active)
    (hfind : findActive d.guesses = some (k, g)) :
    d.delete_letter =
      match g.delete_letter with
      | (.error e, _) => (.error e, d)
      | (.ok _, g') => (.ok (), { d with guesses := d.guesses.set k g' }) := by
  unfold GameData.delete_letter
  rw [if_pos hst, hfind]

lemma all_correct_bool (r : List LetterResult) :
    r.all (fun x => x == LetterResult.Correct) = true ↔
      ∀ x ∈ r, x = LetterResult.Correct := by
  rw [List.all_eq_true]
  simp

lemma update_won (d1 : GameData) (k : Nat) (r : List LetterResult)
    (hall : ∀ x ∈ r, x = LetterResult.Correct) :
    d1.update_game_state k r = some { d1 with game_state := .Won } := by
  unfold GameData.update_game_state
  rw [if_pos ((all_correct_bool r).mpr hall)]

lemma update_next (d1 : GameData) (k : Nat) (r : List LetterResult)
    (hnall : ¬ ∀ x ∈ r, x = LetterResult.Correct) (hlt : k + 1 < d1.max_guesses)
    {g1 : Guess} (hg1 : d1.guesses[k + 1]? = some g1) :
    d1.update_game_state k r =
      some { d1 with guesses := d1.guesses.set (k + 1) { g1 with state := .Active } } := by
  unfold GameData.update_game_state
  rw [if_neg (fun hcon => hnall ((all_correct_bool r).mp hcon)), if_pos (by omega), hg1]

lemma update_lost (d1 : GameData) (k : Nat) (r : List LetterResult)
    (hnall : ¬ ∀ x ∈ r, x = LetterResult.Correct) (hge : ¬ k + 1 < d1.max_guesses) :
    d1.update_game_state k r = some { d1 with game_state := .Lost } := by
  unfold GameData.update_game_state
  rw [if_neg (fun hcon => hnall ((all_correct_bool r).mp hcon)), if_neg (by omega)]

lemma submit_word_eq (d : GameData) {k : Nat} {g : Guess}
    (hst : d.game_state = GameState.Active)
    (hfind : findActive d.guesses = some (k, g))
    (hfull : g.remaining_letters = 0)
    {r : List LetterResult}
    (hcheck : check_guess d.answer d.word_length g.letters = some r) :
    d.submit_word =
      match GameData.update_game_state
          { d with guesses := d.guesses.set k (g.complete_guess r) } k r with
      | none => none
      | some d2 => some (.ok d2.game_state, d2) := by
  unfold GameData.submit_word
  rw [if_pos hst, hfind]
  simp only [if_neg (show ¬ 0 < g.remaining_letters from by omega), hcheck]

lemma pass1_length : ∀ (gl : List Char) (i : Nat) (ans ans' : List Char)
    (res res' : List LetterResult),
    pass1 gl i ans res = some (ans', res') →
    ans'.length = ans.length ∧ res'.length = res.length
  | [], i, ans, ans', res, res', h => by
    cases h
    exact ⟨rfl, rfl⟩
  | g :: rest, i, ans, ans', res, res', h => by
    unfold pass1 at h
    split at h
    · cases h
    · split at h
      · split at h
        · cases h
        · have := pass1_length rest (i + 1) _ ans' _ res' h
          simpa [List.length_set] using this
      · exact pass1_length rest (i + 1) ans ans' res res' h

lemma pass2_length : ∀ (gl : List Char) (i : Nat) (ans ans' : List Char)
    (res res' : List LetterResult),
    pass2 gl i ans res = some (ans', res') →
    ans'.length = ans.length ∧ res'.length = res.length
  | [], i, ans, ans', res, res', h => by
    cases h
    exact ⟨rfl, rfl⟩
  | g :: rest, i, ans, ans', res, res', h => by
    unfold pass2 at h
    split at h
    · cases h
    · split at h
      · exact pass2_length rest (i + 1) ans ans' res res' h
      · split at h
        · have := pass2_length rest (i + 1) _ ans' _ res' h
          simpa [List.length_set] using this
        · exact pass2_length rest (i + 1) ans ans' res res' h

lemma check_guess_length {answer : String} {wl : Nat} {gl : List Char}
    {r : List LetterResult} (h : check_guess answer wl gl = some r) :
    r.length = wl := by
  unfold check_guess at h
  cases h1 : pass1 gl 0 (answer.data.map asciiUpper) (List.replicate wl .Absent) with
  | none => simp [h1] at h
  | some p1 =>
    obtain ⟨ans1, res1⟩ := p1
    cases h2 : pass2 gl 0 ans1 res1 with
    | none => simp [h1, h2] at h
    | some p2 =>
      obtain ⟨ans2, res2⟩ := p2
      simp [h1, h2] at h
      subst h
      have e2 := (pass2_length gl 0 ans1 ans2 res1 res2 h2).2
      have e1 := (pass1_length gl 0 _ ans1 _ res1 h1).2
      rw [List.length_replicate] at e1
      omega

lemma submit_step_won (d : GameData) {k : Nat} {g : Guess} {r : List LetterResult}
    (hst : d.game_state = GameState.Active)
    (hfind : findActive d.guesses = some (k, g))
    (hfull : g.remaining_letters = 0)
    (hcheck : check_guess d.answer d.word_length g.letters = some r)
    (hall : ∀ x ∈ r, x = LetterResult.Correct) :
    d.submit_word = some (.ok .Won,
      { d with guesses := d.guesses.set k (g.complete_guess r), game_state := .Won }) := by
  rw [submit_word_eq d hst hfind hfull hcheck, update_won _ k r hall]

lemma submit_step_next (d : GameData) {k : Nat} {g : Guess} {r : List LetterResult}
    {g1 : Guess}
    (hst : d.game_state = GameState.Active)
    (hfind : findActive d.guesses = some (k, g))
    (hfull : g.remaining_letters = 0)
    (hcheck : check_guess d.answer d.word_length g.letters = some r)
    (hnall : ¬ ∀ x ∈ r, x = LetterResult.Correct)
    (hlt : k + 1 < d.max_guesses)
    (hg1 : d.guesses[k + 1]? = some g1) :
    d.submit_word = some (.ok GameState.Active,
      { d with guesses :=
          (d.guesses.set k (g.complete_guess r)).set (k + 1) { g1 with state := .Active } }) := by
  rw [submit_word_eq d hst hfind hfull hcheck]
  have hg1' : (d.guesses.set k (g.complete_guess r))[k + 1]? = some g1 := by
    rw [set_get_ne _ _ _ _ (show k ≠ k + 1 from by omega)]
    exact hg1
  rw [update_next { d with guesses := d.guesses.set k (g.complete_guess r) } k r hnall
    (show k + 1 <
        ({ d with guesses := d.guesses.set k (g.complete_guess r) } : GameData).max_guesses
      from hlt) hg1']
  simp [hst]

lemma submit_step_lost (d : GameData) {k : Nat} {g : Guess} {r : List LetterResult}
    (hst : d.game_state = GameState.Active)
    (hfind : findActive d.guesses = some (k, g))
    (hfull : g.remaining_letters = 0)
    (hcheck : check_guess d.answer d.word_length g.letters = some r)
    (hnall : ¬ ∀ x ∈ r, x = LetterResult.Correct)
    (hge : ¬ k + 1 < d.max_guesses) :
    d.submit_word = some (.ok .Lost,
      { d with guesses := d.guesses.set k (g.complete_guess r), game_state := .Lost }) := by
  rw [submit_word_eq d hst hfind hfull hcheck,
    update_lost { d with guesses := d.guesses.set k (g.complete_guess r) } k r hnall
      (show ¬ k + 1 <
          ({ d with guesses := d.guesses.set k (g.complete_guess r) } : GameData).max_guesses
        from hge)]

lemma submit_word_nofind (d : GameData)
    (hst : d.game_state = GameState.Active)
    (hfind : findActive d.guesses = none) :
    d.submit_word = some (.error (.InternalError "No active guess found"), d) := by
  unfold GameData.submit_word
  rw [if_pos hst, hfind]

lemma submit_word_incomplete (d : GameData) {k : Nat} {g : Guess}
    (hst : d.game_state = GameState.Active)
    (hfind : findActive d.guesses = some (k, g))
    (hfull : 0 < g.remaining_letters) :
    d.submit_word = some (.error .IncompleteGuess, d) := by
  unfold GameData.submit_word
  rw [if_pos hst, hfind]
  simp only [if_pos hfull]

lemma submit_word_panic (d : GameData) {k : Nat} {g : Guess}
    (hst : d.game_state = GameState.Active)
    (hfind : findActive d.guesses = some (k, g))
    (hfull : ¬ 0 < g.remaining_letters)
    (hcheck : check_guess d.answer d.word_length g.letters = none) :
    d.submit_word = none := by
  unfold GameData.submit_word
  rw [if_pos hst, hfind]
  simp only [if_neg hfull, hcheck]

/-! ### Preservation of the round invariant -/

lemma wf_update_active_letters (d : GameData) (hwf : d.wf) {k : Nat}
    (hact : activeAt d.guesses k) {a : Guess} (hka : d.guesses[k]? = some a)
    (ls : List Char) (hls : ls.length ≤ d.word_length) :
    ({ d with guesses := d.guesses.set k { a with letters := ls } } : GameData).wf := by
  obtain ⟨hlen, hmem, -⟩ := hwf
  have hamem : a ∈ d.guesses := List.getElem?_mem hka
  obtain ⟨hml, -, -, hac, -⟩ := hmem a hamem
  obtain ⟨pre, a0, post, hdec, hklen, hpre, ha0, hpost⟩ := hact
  have ha0a : a0 = a := by
    rw [hdec, ← hklen, getElem_at_append pre a0 post] at hka
    exact Option.some.inj hka
  rw [ha0a] at hdec ha0
  refine ⟨by simpa using hlen, ?_, ?_⟩
  · intro g hg
    rcases List.mem_or_eq_of_mem_set (by simpa using hg) with hg' | rfl
    · exact hmem g hg'
    · refine ⟨hml, hls, ?_, ?_, ?_⟩
      · intro hcon
        rw [show ({ a with letters := ls } : Guess).state = a.state from rfl, ha0] at hcon
        cases hcon
      · intro _
        exact hac ha0
      · intro hcon
        rw [show ({ a with letters := ls } : Guess).state = a.state from rfl, ha0] at hcon
        cases hcon
  · intro _
    exact ⟨k, activeAt_set_same ⟨pre, a, post, hdec, hklen, hpre, ha0, hpost⟩ ha0⟩

lemma wf_add (d : GameData) (c : Char) (hwf : d.wf) : (d.add_letter c).2.wf := by
  by_cases hst : d.game_state = GameState.Active
  · obtain ⟨k, hk⟩ := hwf.2.2 hst
    obtain ⟨a, hfind, hka, -⟩ := activeAt_findActive hk
    rw [add_letter_eq d c hst hfind]
    by_cases hfull : a.remaining_letters ≤ 0
    · rw [show a.add_letter (asciiUpper c) = (.error .FullGuess, a) from by
        unfold Guess.add_letter; rw [if_pos hfull]]
      exact hwf
    · rw [show a.add_letter (asciiUpper c) =
          (.ok (), { a with letters := a.letters ++ [asciiUpper c] }) from by
        unfold Guess.add_letter; rw [if_neg hfull]]
      have hml := (hwf.2.1 a (List.getElem?_mem hka)).1
      have hlt : a.letters.length < a.max_length := by
        unfold Guess.remaining_letters at hfull
        omega
      exact wf_update_active_letters d hwf hk hka (a.letters ++ [asciiUpper c])
        (by simp only [List.length_append, List.length_cons, List.length_nil]; omega)
  · rw [add_letter_not_active d c hst]
    exact hwf

lemma wf_del (d : GameData) (hwf : d.wf) : d.delete_letter.2.wf := by
  by_cases hst : d.game_state = GameState.Active
  · obtain ⟨k, hk⟩ := hwf.2.2 hst
    obtain ⟨a, hfind, hka, -⟩ := activeAt_findActive hk
    rw [delete_letter_eq d hst hfind]
    by_cases hempty : a.remaining_letters = a.max_length
    · rw [show a.delete_letter = (.error .EmptyGuess, a) from by
        unfold Guess.delete_letter; rw [if_pos hempty]]
      exact hwf
    · rw [show a.delete_letter = (.ok (), { a with letters := a.letters.dropLast }) from by
        unfold Guess.delete_letter; rw [if_neg hempty]]
      have hll := (hwf.2.1 a (List.getElem?_mem hka)).2.1
      exact wf_update_active_letters d hwf hk hka a.letters.dropLast
        (by rw [List.length_dropLast]; omega)
  · rw [delete_letter_not_active d hst]
    exact hwf

lemma complete_guess_wf {wl : Nat} {a : Guess} {res : List LetterResult}
    (hml : a.max_length = wl) (hlets : a.letters.length = wl) (hres : res.length = wl) :
    Guess.wf wl (a.complete_guess res) := by
  refine ⟨hml, by rw [show (a.complete_guess res).letters = a.letters from rfl]; omega,
    ?_, ?_, ?_⟩
  · intro hcon
    simp [Guess.complete_guess] at hcon
  · intro hcon
    simp [Guess.complete_guess] at hcon
  · intro _
    exact ⟨res, rfl, hres, hlets⟩

lemma pending_activate_wf {wl : Nat} {p : Guess} (hwf : Guess.wf wl p)
    (hp : p.state = GuessState.Pending) :
    Guess.wf wl { p with state := GuessState.Active } := by
  obtain ⟨hml, hll, hpd, -, -⟩ := hwf
  obtain ⟨hlets, hres⟩ := hpd hp
  refine ⟨hml,
    by rw [show ({ p with state := GuessState.Active } : Guess).letters = p.letters from rfl]
       omega,
    ?_, ?_, ?_⟩
  · intro hcon
    simp at hcon
  · intro _
    exact hres
  · intro hcon
    simp at hcon

lemma wf_sub {d d' : GameData} {r : Except GameError GameState}
    (hsub : d.submit_word = some (r, d')) (hwf : d.wf) : d'.wf := by
  obtain ⟨hlen, hmem, hact⟩ := hwf
  by_cases hst : d.game_state = GameState.Active
  · obtain ⟨k, hk⟩ := hact hst
    obtain ⟨pre, a, post, hdec, hklen, hpre, ha, hpost⟩ := hk
    have hamem : a ∈ d.guesses := by
      rw [hdec]
      exact List.mem_append_right _ (List.mem_cons_self _ _)
    obtain ⟨hml, hll, -, -, -⟩ := hmem a hamem
    have hfind : findActive d.guesses = some (k, a) := by
      rw [hdec, ← hklen]
      exact findActive_append pre a post (fun g hg => by rw [hpre g hg]; simp) ha
    by_cases hinc : 0 < a.remaining_letters
    · rw [submit_word_incomplete d hst hfind hinc] at hsub
      cases hsub
      exact ⟨hlen, hmem, hact⟩
    · cases hcheck : check_guess d.answer d.word_length a.letters with
      | none =>
        rw [submit_word_panic d hst hfind hinc hcheck] at hsub
        cases hsub
      | some res =>
        have hfull : a.remaining_letters = 0 := by omega
        have hlets : a.letters.length = d.word_length := by
          unfold Guess.remaining_letters at hfull
          omega
        have hres := check_guess_length hcheck
        have hcwf : Guess.wf d.word_length (a.complete_guess res) :=
          complete_guess_wf hml hlets hres
        by_cases hall : ∀ x ∈ res, x = LetterResult.Correct
        · rw [submit_step_won d hst hfind hfull hcheck hall] at hsub
          cases hsub
          refine ⟨by simpa using hlen, ?_, ?_⟩
          · intro g hg
            rcases List.mem_or_eq_of_mem_set (by simpa using hg) with hg' | rfl
            · exact hmem g hg'
            · exact hcwf
          · intro hcon
            exact absurd hcon (by simp)
        · by_cases hnext : k + 1 < d.max_guesses
          · obtain ⟨p0, post', rfl⟩ : ∃ p0 post', post = p0 :: post' := by
              cases post with
              | nil =>
                exfalso
                rw [hdec] at hlen
                simp at hlen
                omega
              | cons p0 post' => exact ⟨p0, post', rfl⟩
            have hg1 : d.guesses[k + 1]? = some p0 := by
              rw [hdec, ← hklen]
              exact getElem_at_append_succ pre a p0 post'
            have hp0mem : p0 ∈ d.guesses := by
              rw [hdec]
              exact List.mem_append_right _ (by simp)
            have hp0p : p0.state = GuessState.Pending := hpost p0 (by simp)
            rw [submit_step_next d hst hfind hfull hcheck hall hnext hg1] at hsub
            cases hsub
            have hlist : (d.guesses.set k (a.complete_guess res)).set (k + 1)
                ({ p0 with state := GuessState.Active }) =
                pre ++ a.complete_guess res ::
                  ({ p0 with state := GuessState.Active }) :: post' := by
              rw [hdec, ← hklen, set_at_append, set_at_append_succ]
            refine ⟨by simpa using hlen, ?_, ?_⟩
            · intro g hg
              have hg2 : g ∈ pre ++ a.complete_guess res ::
                  ({ p0 with state := GuessState.Active }) :: post' := by
                simpa [hlist] using hg
              rcases List.mem_append.mp hg2 with hg' | hg'
              · exact hmem g (by rw [hdec]; exact List.mem_append_left _ hg')
              · rcases List.mem_cons.mp hg' with rfl | hgb
                · exact hcwf
                · rcases List.mem_cons.mp hgb with rfl | hgc
                  · exact pending_activate_wf (hmem p0 hp0mem) hp0p
                  · exact hmem g (by rw [hdec]; exact List.mem_append_right _ (by simp [hgc]))
            · intro _
              refine ⟨k + 1, pre ++ [a.complete_guess res],
                { p0 with state := GuessState.Active }, post', ?_, ?_, ?_, rfl, ?_⟩
              · show (d.guesses.set k (a.complete_guess res)).set (k + 1)
                  ({ p0 with state := GuessState.Active }) = _
                rw [hlist]
                simp
              · simp [hklen]
              · intro g hg
                rcases List.mem_append.mp hg with hg' | hg'
                · exact hpre g hg'
                · rw [List.mem_singleton.mp hg']
                  rfl
              · intro g hg
                exact hpost g (by simp [hg])
          · rw [submit_step_lost d hst hfind hfull hcheck hall hnext] at hsub
            cases hsub
            refine ⟨by simpa using hlen, ?_, ?_⟩
            · intro g hg
              rcases List.mem_or_eq_of_mem_set (by simpa using hg) with hg' | rfl
              · exact hmem g hg'
              · exact hcwf
            · intro hcon
              exact absurd hcon (by simp)
  · rw [submit_word_not_active d hst] at hsub
    cases hsub
    exact ⟨hlen, hmem, hact⟩

/-- Every reachable round state satisfies the round invariant. -/
lemma reachable_wf {d : GameData} (h : Reachable d) : d.wf := by
  induction h with
  | init answer wl mg hmg => exact wf_new answer wl mg hmg
  | add c hd ih => exact wf_add _ c ih
  | del hd ih => exact wf_del _ ih
  | sub hd hsubmit ih => exact wf_sub hsubmit ih

/-- C7: in every round state reachable from construction via add_letter,
delete_letter and submit: while the round is Active the attempts split as
Complete-prefix / one Active attempt / Pending-suffix (exactly one Active
attempt), and once the round is Won or Lost every operation returns
NoActiveGame and leaves the whole round — in particular every Attempt's
state — unchanged. -/
theorem round_attempt_invariant :
    (∀ d : GameData, Reachable d → d.game_state = GameState.Active →
      ∃ k, activeAt d.guesses k) ∧
    (∀ d : GameData, Reachable d → d.game_state ≠ GameState.Active →
      (∀ c, d.add_letter c = (.error .NoActiveGame, d)) ∧
      d.delete_letter = (.error .NoActiveGame, d) ∧
      d.submit_word = some (.error .NoActiveGame, d)) := by
  constructor
  · intro d hd hst
    exact (reachable_wf hd).2.2 hst
  · intro d hd hst
    exact ⟨fun c => add_letter_not_active d c hst, delete_letter_not_active d hst,
      submit_word_not_active d hst⟩

/-- Witness for `round_attempt_invariant`: a fresh one-guess round has the
Active layout, and the round reached by typing XY against answer AB and
submitting (a Lost round) rejects a further submit unchanged. -/
theorem round_attempt_invariant_witness :
    (∃ k, activeAt (GameData.new "AB" 2 1).guesses k) ∧
    GameData.submit_word
        ⟨GameState.Lost, "AB", 2, 1,
          [⟨2, ['X', 'Y'], some [.Absent, .Absent], .Complete⟩]⟩ =
      some (.error .NoActiveGame,
        ⟨GameState.Lost, "AB", 2, 1,
          [⟨2, ['X', 'Y'], some [.Absent, .Absent], .Complete⟩]⟩) := by
  constructor
  · exact round_attempt_invariant.1 _ (Reachable.init "AB" 2 1 (by decide)) rfl
  · have h1 : Reachable (((GameData.new "AB" 2 1).add_letter 'X').2.add_letter 'Y').2 :=
      Reachable.add 'Y' (Reachable.add 'X' (Reachable.init "AB" 2 1 (by decide)))
    have h2 : Reachable (⟨GameState.Lost, "AB", 2, 1,
        [⟨2, ['X', 'Y'], some [.Absent, .Absent], .Complete⟩]⟩ : GameData) :=
      Reachable.sub h1 rfl
    exact (round_attempt_invariant.2 _ h2 (by decide)).2.2

/-- C5: in any active round, submitting a full guess whose every letter scores
Correct transitions the round to Won regardless of how many attempts remain —
the completed attempt is recorded and no other attempt (in particular no
Pending one) is touched, so none is activated.  Scoring all-Correct is
equivalent to the guess equalling the answer case-insensitively. -/
theorem submit_all_correct_wins :
    (∀ (d : GameData) (k : Nat) (g : Guess) (r : List LetterResult),
        d.game_state = GameState.Active →
        findActive d.guesses = some (k, g) →
        g.remaining_letters = 0 →
        check_guess d.answer d.word_length g.letters = some r →
        (∀ x ∈ r, x = LetterResult.Correct) →
        d.submit_word = some (.ok .Won,
          { d with guesses := d.guesses.set k (g.complete_guess r), game_state := .Won }) ∧
        ∀ j : Nat, j ≠ k → (d.guesses.set k (g.complete_guess r))[j]? = d.guesses[j]?) ∧
    (∀ (answer : String) (gl : List Char), answer.data.length = gl.length →
      ((∃ r, check_guess answer gl.length gl = some r ∧
          ∀ x ∈ r, x = LetterResult.Correct) ↔ gl = answer.data.map asciiUpper)) := by
  constructor
  · intro d k g r hst hfind hfull hcheck hall
    refine ⟨submit_step_won d hst hfind hfull hcheck hall, ?_⟩
    intro j hj
    exact set_get_ne _ _ _ _ (Ne.symm hj)
  · intro answer gl hlen
    exact check_guess_all_correct_iff answer gl hlen

/-- Witness for `submit_all_correct_wins`: a round with two attempts whose
first, fully typed attempt matches the answer AB is won on the first submit,
leaving the second attempt Pending. -/
theorem submit_all_correct_wins_witness :
    GameData.submit_word
        ⟨GameState.Active, "AB", 2, 2,
          [⟨2, ['A', 'B'], none, .Active⟩, ⟨2, [], none, .Pending⟩]⟩ =
      some (.ok .Won,
        { (⟨GameState.Active, "AB", 2, 2,
            [⟨2, ['A', 'B'], none, .Active⟩, ⟨2, [], none, .Pending⟩]⟩ : GameData) with
          guesses :=
            ([⟨2, ['A', 'B'], none, .Active⟩, ⟨2, [], none, .Pending⟩] : List Guess).set 0
              (Guess.complete_guess ⟨2, ['A', 'B'], none, .Active⟩ [.Correct, .Correct])
          game_state := .Won }) :=
  (submit_all_correct_wins.1
      ⟨GameState.Active, "AB", 2, 2,
        [⟨2, ['A', 'B'], none, .Active⟩, ⟨2, [], none, .Pending⟩]⟩
      0 ⟨2, ['A', 'B'], none, .Active⟩ [.Correct, .Correct]
      rfl rfl rfl (by decide) (by decide)).1

lemma set_take {α : Type} : ∀ (l : List α) (i : Nat) (x : α),
    (l.set i x).take i = l.take i
  | [], _, _ => rfl
  | _ :: _, 0, _ => rfl
  | a :: l, i + 1, x => by
    show a :: (l.set i x).take i = a :: l.take i
    rw [set_take l i x]

lemma set_take_succ {α : Type} : ∀ (l : List α) (i : Nat) (x : α), i < l.length →
    (l.set i x).take (i + 1) = l.take i ++ [x]
  | [], i, x, h => by simp at h
  | a :: l, 0, x, h => rfl
  | a :: l, i + 1, x, h => by
    show a :: (l.set i x).take (i + 1) = a :: (l.take i ++ [x])
    rw [set_take_succ l i x (by simpa using h)]

lemma set_drop {α : Type} : ∀ (l : List α) (i j : Nat) (x : α), i < j →
    (l.set i x).drop j = l.drop j
  | [], _, _, _, _ => rfl
  | _ :: _, i, 0, _, h => by omega
  | a :: l, 0, j + 1, x, h => by
    show l.drop j = l.drop j
    rfl
  | a :: l, i + 1, j + 1, x, h => by
    show (l.set i x).drop j = l.drop j
    exact set_drop l i j x (by omega)

lemma set_self_of_getElem {α : Type} : ∀ (l : List α) (k : Nat) (a : α),
    l[k]? = some a → l.set k a = l
  | [], k, a, h => by simp at h
  | x :: l, 0, a, h => by
    simp at h
    show a :: l = x :: l
    rw [h]
  | x :: l, k + 1, a, h => by
    show x :: l.set k a = x :: l
    rw [set_self_of_getElem l k a (by simpa using h)]

lemma overwriteLetters_eq : ∀ (cs : List Char) (i : Nat)
    (acc : List (Option Char × Option LetterResult)),
    i + cs.length ≤ acc.length →
    overwriteLetters cs i acc =
      acc.take i ++ cs.map (fun c => (some (asciiUpper c), some LetterResult.Empty)) ++
        acc.drop (i + cs.length)
  | [], i, acc, h => by
    show acc = acc.take i ++ [] ++ acc.drop (i + 0)
    simp
  | c :: cs, i, acc, h => by
    simp only [List.length_cons] at h
    have hia : i < acc.length := by omega
    show overwriteLetters cs (i + 1) (acc.set i (some (asciiUpper c), some .Empty)) = _
    rw [overwriteLetters_eq cs (i + 1) _ (by rw [List.length_set]; omega)]
    rw [set_take_succ acc i _ hia, set_drop acc i (i + 1 + cs.length) _ (by omega)]
    simp only [List.length_cons]
    rw [show i + (cs.length + 1) = i + 1 + cs.length from by omega]
    simp

/-- C8: for every Attempt of every reachable round, the read projection
`Guess::values` has exactly `word_length` entries; while unscored
(`result = none`) the entered letters render uppercased with outcome `Empty`
and the unfilled tail renders as blank spaces with `Empty`; once scored
(`result = some r`, i.e. the attempt is Complete) every position pairs the
stored letter with its scored outcome. -/
theorem values_projection :
    ∀ d : GameData, Reachable d → ∀ g ∈ d.guesses,
      g.values.length = d.word_length ∧
      (g.result = none →
        g.values =
          g.letters.map (fun c => (some (asciiUpper c), some LetterResult.Empty)) ++
            List.replicate (d.word_length - g.letters.length)
              (some ' ', some LetterResult.Empty)) ∧
      (∀ r, g.result = some r →
        g.values = (g.letters.zip r).map fun p => (some p.1, some p.2)) := by
  intro d hd g hg
  obtain ⟨hml, hll, hpd, hac, hcm⟩ := (reachable_wf hd).2.1 g hg
  have hnone : g.result = none →
      g.values =
        g.letters.map (fun c => (some (asciiUpper c), some LetterResult.Empty)) ++
          List.replicate (d.word_length - g.letters.length)
            (some ' ', some LetterResult.Empty) := by
    intro hres
    rw [show g.values = overwriteLetters g.letters 0
        (List.replicate g.max_length (some ' ', some LetterResult.Empty)) from by
      unfold Guess.values
      rw [hres]]
    rw [overwriteLetters_eq _ _ _ (by simp [hml]; omega)]
    simp [hml]
  have hsome : ∀ r, g.result = some r →
      g.values = (g.letters.zip r).map fun p => (some p.1, some p.2) := by
    intro r hres
    unfold Guess.values
    rw [hres]
  refine ⟨?_, hnone, hsome⟩
  cases hres : g.result with
  | none =>
    rw [hnone hres]
    simp only [List.length_append, List.length_map, List.length_replicate]
    omega
  | some r =>
    have hstate : g.state = GuessState.Complete := by
      cases hgs : g.state with
      | Active => rw [hac hgs] at hres; cases hres
      | Pending => rw [(hpd hgs).2] at hres; cases hres
      | Complete => rfl
    obtain ⟨r', hr', hrlen, hletlen⟩ := hcm hstate
    rw [hres] at hr'
    obtain rfl : r = r' := Option.some.inj hr'
    rw [hsome r hres]
    simp only [List.length_map, List.length_zip]
    omega

/-- Witness for `values_projection`: the fresh Active attempt of a new round
renders as two blank cells with Empty outcomes. -/
theorem values_projection_witness :
    (⟨2, [], none, GuessState.Active⟩ : Guess).values.length = 2 ∧
    (⟨2, [], none, GuessState.Active⟩ : Guess).values =
      List.replicate 2 (some ' ', some LetterResult.Empty) := by
  have h := values_projection (GameData.new "AB" 2 1)
    (Reachable.init "AB" 2 1 (by decide)) ⟨2, [], none, GuessState.Active⟩ (by decide)
  exact ⟨h.1, by simpa using h.2.1 rfl⟩

lemma wf_typeLetters : ∀ (w : List Char) (d : GameData), d.wf → (typeLetters d w).wf
  | [], _, h => h
  | c :: w, d, h => wf_typeLetters w (d.add_letter c).2 (wf_add d c h)

lemma typeLetters_fills : ∀ (w : List Char) (d : GameData) (k : Nat) (a : Guess),
    d.game_state = GameState.Active →
    activeAt d.guesses k → d.guesses[k]? = some a →
    a.letters.length + w.length ≤ a.max_length →
    typeLetters d w =
      { d with guesses :=
          d.guesses.set k { a with letters := a.letters ++ w.map asciiUpper } }
  | [], d, k, a, hst, hact, hka, hcap => by
    show d = _
    rw [show ({ a with letters := a.letters ++ List.map asciiUpper [] } : Guess) = a from by
      cases a; simp]
    rw [set_self_of_getElem _ _ _ hka]
  | c :: w, d, k, a, hst, hact, hka, hcap => by
    simp only [List.length_cons] at hcap
    have hklt : k < d.guesses.length := by
      rcases Nat.lt_or_ge k d.guesses.length with h | h
      · exact h
      · rw [List.getElem?_eq_none h] at hka
        cases hka
    obtain ⟨a1, hfind, hka1, hstate⟩ := activeAt_findActive hact
    have ha1 : a1 = a := by
      rw [hka1] at hka
      exact Option.some.inj hka
    rw [ha1] at hfind hstate
    have hstep : (d.add_letter c).2 =
        { d with guesses :=
            d.guesses.set k ({ a with letters := a.letters ++ [asciiUpper c] }) } := by
      rw [add_letter_eq d c hst hfind]
      rw [show a.add_letter (asciiUpper c) =
          (.ok (), { a with letters := a.letters ++ [asciiUpper c] }) from by
        unfold Guess.add_letter Guess.remaining_letters
        rw [if_neg (by omega)]]
    show typeLetters (d.add_letter c).2 w = _
    rw [hstep]
    rw [typeLetters_fills w
      ({ d with guesses :=
          (d.guesses.set k ({ a with letters := a.letters ++ [asciiUpper c] })) })
      k ({ a with letters := a.letters ++ [asciiUpper c] })
      (show ({ d with guesses :=
          (d.guesses.set k ({ a with letters := a.letters ++ [asciiUpper c] })) } :
            GameData).game_state = GameState.Active from hst)
      (show activeAt ({ d with guesses :=
          (d.guesses.set k ({ a with letters := a.letters ++ [asciiUpper c] })) } :
            GameData).guesses k from activeAt_set_same hact hstate)
      (show ({ d with guesses :=
          (d.guesses.set k ({ a with letters := a.letters ++ [asciiUpper c] })) } :
            GameData).guesses[k]? =
          some ({ a with letters := a.letters ++ [asciiUpper c] }) from
        set_get_self _ _ _ hklt)
      (by simp only [List.length_append, List.length_cons, List.length_nil]; omega)]
    simp only [List.set_set, List.map_cons]
    rw [show (a.letters ++ [asciiUpper c]) ++ w.map asciiUpper
        = a.letters ++ asciiUpper c :: w.map asciiUpper from by simp]

lemma playWords_cons (d : GameData) (w : List Char) (ws : List (List Char)) :
    playWords d (w :: ws) =
      match (typeLetters d w).submit_word with
      | some (.ok _, d') => playWords d' ws
      | _ => none := rfl

lemma playWords_lost (answer : String) (wl N : Nat) (hlen : answer.data.length = wl) :
    ∀ (ws : List (List Char)) (m : Nat) (d : GameData),
      d.wf → d.answer = answer → d.word_length = wl → d.max_guesses = N →
      d.game_state = GameState.Active → activeAt d.guesses m →
      (∀ a : Guess, d.guesses[m]? = some a → a.letters = []) →
      m + ws.length = N →
      (∀ w ∈ ws, w.length = wl ∧ w.map asciiUpper ≠ answer.data.map asciiUpper) →
      ws ≠ [] →
      ∃ dfin, playWords d ws = some dfin ∧ dfin.game_state = GameState.Lost ∧
        dfin.submit_word = some (.error .NoActiveGame, dfin)
  | [], m, d, _, _, _, _, _, _, _, _, _, hne => absurd rfl hne
  | w :: ws, m, d, hwf, hans, hwl, hmg, hst, hact, hae, hcount, hwords, _ => by
    obtain ⟨a, hfind, hka, hstate⟩ := activeAt_findActive hact
    have hal : a.letters = [] := hae a hka
    have haml : a.max_length = wl := by
      rw [← hwl]
      exact (hwf.2.1 a (List.getElem?_mem hka)).1
    obtain ⟨hwlen, hwne⟩ := hwords w (by simp)
    have hklt : m < d.guesses.length := by
      rcases Nat.lt_or_ge m d.guesses.length with h | h
      · exact h
      · rw [List.getElem?_eq_none h] at hka
        cases hka
    have hT := typeLetters_fills w d m a hst hact hka
      (by rw [hal, haml]; simp [hwlen])
    have hfindT : findActive
        (d.guesses.set m ({ a with letters := a.letters ++ w.map asciiUpper })) =
        some (m, { a with letters := a.letters ++ w.map asciiUpper }) := by
      obtain ⟨a2, hf2, hk2, -⟩ := activeAt_findActive (activeAt_set_same hact
        (show ({ a with letters := a.letters ++ w.map asciiUpper } : Guess).state =
          GuessState.Active from hstate))
      rw [set_get_self _ _ _ hklt] at hk2
      rw [hf2, Option.some.inj hk2]
    have hffT :
        Guess.remaining_letters ({ a with letters := a.letters ++ w.map asciiUpper }) = 0 := by
      unfold Guess.remaining_letters
      show a.max_length - (a.letters ++ w.map asciiUpper).length = 0
      rw [hal, haml]
      simp [hwlen]
    obtain ⟨r, hr, hrlen⟩ := check_guess_some answer wl (w.map asciiUpper)
      (by simp [hlen, hwlen]) (by simp [hwlen])
    have hcheckT : check_guess d.answer d.word_length
        (({ a with letters := a.letters ++ w.map asciiUpper } : Guess).letters) = some r := by
      show check_guess d.answer d.word_length (a.letters ++ w.map asciiUpper) = some r
      rw [hal, hans, hwl]
      simpa using hr
    have hnall : ¬ ∀ x ∈ r, x = LetterResult.Correct := by
      intro hcon
      apply hwne
      apply (check_guess_all_correct_iff answer (w.map asciiUpper) (by simp [hlen, hwlen])).mp
      refine ⟨r, ?_, hcon⟩
      rw [show (w.map asciiUpper).length = wl from by simp [hwlen]]
      exact hr
    simp only [List.length_cons] at hcount
    cases ws with
    | nil =>
      simp only [List.length_nil] at hcount
      have hlast : ¬ m + 1 < d.max_guesses := by omega
      have hsubmit := submit_step_lost
        ({ d with guesses :=
            (d.guesses.set m ({ a with letters := a.letters ++ w.map asciiUpper })) })
        (show _ = GameState.Active from hst) hfindT hffT hcheckT hnall
        (show ¬ m + 1 <
            ({ d with guesses :=
              (d.guesses.set m ({ a with letters := a.letters ++ w.map asciiUpper })) } :
                GameData).max_guesses from hlast)
      refine ⟨{ d with
          guesses :=
            ((d.guesses.set m ({ a with letters := a.letters ++ w.map asciiUpper })).set m
              (Guess.complete_guess ({ a with letters := a.letters ++ w.map asciiUpper }) r)),
          game_state := GameState.Lost }, ?_, rfl, submit_word_not_active _ (by simp)⟩
      rw [playWords_cons, hT, hsubmit]
      rfl
    | cons w' ws' =>
      simp only [List.length_cons] at hcount
      have hnext : m + 1 < d.max_guesses := by omega
      obtain ⟨pre, a0, post, hdec, hklen, hpre, ha0, hpost⟩ := hact
      have ha0a : a0 = a := by
        rw [hdec, ← hklen, getElem_at_append pre a0 post] at hka
        exact Option.some.inj hka
      rw [ha0a] at hdec ha0
      obtain ⟨p0, post', rfl⟩ : ∃ p0 post', post = p0 :: post' := by
        cases post with
        | nil =>
          exfalso
          have hl := hwf.1
          rw [hdec] at hl
          simp at hl
          omega
        | cons p0 post' => exact ⟨p0, post', rfl⟩
      have hg1 : (d.guesses.set m
          ({ a with letters := a.letters ++ w.map asciiUpper }))[m + 1]? = some p0 := by
        rw [set_get_ne _ _ _ _ (by omega), hdec, ← hklen]
        exact getElem_at_append_succ pre a p0 post'
      have hp0 : p0.state = GuessState.Pending := hpost p0 (by simp)
      have hp0lets : p0.letters = [] :=
        ((hwf.2.1 p0 (by rw [hdec]; exact List.mem_append_right _ (by simp))).2.2.1 hp0).1
      have hsubmit := submit_step_next
        ({ d with guesses :=
            (d.guesses.set m ({ a with letters := a.letters ++ w.map asciiUpper })) })
        (show _ = GameState.Active from hst) hfindT hffT hcheckT hnall
        (show m + 1 <
            ({ d with guesses :=
              (d.guesses.set m ({ a with letters := a.letters ++ w.map asciiUpper })) } :
                GameData).max_guesses from hnext)
        (show ({ d with guesses :=
            (d.guesses.set m ({ a with letters := a.letters ++ w.map asciiUpper })) } :
              GameData).guesses[m + 1]? = some p0 from hg1)
      have hwfT : (typeLetters d w).wf := wf_typeLetters w d hwf
      rw [hT] at hwfT
      have hwfN := wf_sub hsubmit hwfT
      have hlistN : ((d.guesses.set m
          ({ a with letters := a.letters ++ w.map asciiUpper })).set m
          (Guess.complete_guess ({ a with letters := a.letters ++ w.map asciiUpper }) r)).set
          (m + 1) ({ p0 with state := GuessState.Active }) =
          pre ++ Guess.complete_guess ({ a with letters := a.letters ++ w.map asciiUpper }) r ::
            ({ p0 with state := GuessState.Active }) :: post' := by
        rw [List.set_set, hdec, ← hklen, set_at_append, set_at_append_succ]
      have hactN : activeAt (((d.guesses.set m
          ({ a with letters := a.letters ++ w.map asciiUpper })).set m
          (Guess.complete_guess ({ a with letters := a.letters ++ w.map asciiUpper }) r)).set
          (m + 1) ({ p0 with state := GuessState.Active })) (m + 1) := by
        refine ⟨pre ++
            [Guess.complete_guess ({ a with letters := a.letters ++ w.map asciiUpper }) r],
          { p0 with state := GuessState.Active }, post', ?_, by simp [hklen], ?_, rfl,
          fun g hg => hpost g (by simp [hg])⟩
        · rw [hlistN]
          simp
        · intro g hg
          rcases List.mem_append.mp hg with hg' | hg'
          · exact hpre g hg'
          · rw [List.mem_singleton.mp hg']
            rfl
      have haeN : ∀ a' : Guess, (((d.guesses.set m
          ({ a with letters := a.letters ++ w.map asciiUpper })).set m
          (Guess.complete_guess ({ a with letters := a.letters ++ w.map asciiUpper }) r)).set
          (m + 1) ({ p0 with state := GuessState.Active }))[m + 1]? = some a' →
          a'.letters = [] := by
        intro a' ha'
        rw [hlistN, show m + 1 = pre.length + 1 from by omega, getElem_at_append_succ] at ha'
        rw [← Option.some.inj ha']
        exact hp0lets
      obtain ⟨dfin, hplay, hlost, hsubfin⟩ := playWords_lost answer wl N hlen (w' :: ws')
        (m + 1) _ hwfN hans hwl hmg hst hactN haeN
        (by simp only [List.length_cons]; omega)
        (fun v hv => hwords v (by simp [hv])) (by simp)
      refine ⟨dfin, ?_, hlost, hsubfin⟩
      rw [playWords_cons, hT, hsubmit]
      exact hplay

/-- C4: a fresh round with `max_guesses = N` (N ≥ 1): typing and submitting N
full guesses, none of which matches the answer case-insensitively (none fully
correct), succeeds at every submit and leaves the round Lost after the Nth
submit; an (N+1)th submit call fails with NoActiveGame and changes nothing. -/
theorem lose_after_max_guesses :
    ∀ (answer : String) (wl N : Nat) (ws : List (List Char)),
      answer.data.length = wl → ws.length = N → 0 < N →
      (∀ w ∈ ws, w.length = wl ∧ w.map asciiUpper ≠ answer.data.map asciiUpper) →
      ∃ dfin, playWords (GameData.new answer wl N) ws = some dfin ∧
        dfin.game_state = GameState.Lost ∧
        dfin.submit_word = some (.error .NoActiveGame, dfin) := by
  intro answer wl N ws hlen hws hN hwords
  apply playWords_lost answer wl N hlen ws 0 (GameData.new answer wl N)
    (wf_new answer wl N hN) rfl rfl rfl rfl ?hact ?hae (by omega) hwords
    (by intro hcon; rw [hcon] at hws; simp at hws; omega)
  case hact =>
    obtain ⟨m, rfl⟩ : ∃ m, N = m + 1 := ⟨N - 1, by omega⟩
    refine ⟨[], { Guess.new wl with state := GuessState.Active },
      List.replicate m (Guess.new wl), ?_, rfl, by simp, rfl, ?_⟩
    · show Guess.make_vec wl (m + 1) = _
      rw [make_vec_succ]
      rfl
    · intro g hg
      rw [List.eq_of_mem_replicate hg]
      rfl
  case hae =>
    intro a ha
    obtain ⟨m, rfl⟩ : ∃ m, N = m + 1 := ⟨N - 1, by omega⟩
    rw [show (GameData.new answer wl (m + 1)).guesses = Guess.make_vec wl (m + 1) from rfl,
      make_vec_succ] at ha
    simp at ha
    rw [← ha]
    rfl

/-- Witness for `lose_after_max_guesses`: against answer AB with two allowed
guesses, submitting CD twice loses the round and a third submit is refused. -/
theorem lose_after_max_guesses_witness :
    ∃ dfin, playWords (GameData.new "AB" 2 2) [['C', 'D'], ['C', 'D']] = some dfin ∧
      dfin.game_state = GameState.Lost ∧
      dfin.submit_word = some (.error .NoActiveGame, dfin) :=
  lose_after_max_guesses "AB" 2 2 [['C', 'D'], ['C', 'D']] (by decide) rfl (by decide)
    (by decide)

end TuiWordle
